import Mathlib

/-!
Shallow embedding of the nephe NetworkPolicy reconciliation engine, covering
the cloud-sync bookmark gate, the cloud-resource NP tracker, the appliedTo
security-group rule sync, the AWS rule-update / delete adapter calls, and the
cloud rule-description round trip.  Each definition is translated from the
corresponding Go source; external collaborators (the EC2 API client, indexer
error paths, logging) are modelled as explicit parameters or oracles.
-/

set_option maxRecDepth 4000

/-! ## Watch events and the bookmark gate (`processBookMark` / `syncWithCloud`) -/

/-- Watch event types delivered on the policy-input stream
(`watch.EventType` in the Go client library). -/
inductive WatchEvent where
  | added
  | modified
  | deleted
  | bookmark
deriving DecidableEq, Repr

/-- Modelled from the spec: `npSyncReadyBookMarkCnt` is declared outside the
provided sources; the spec fixes its default to 3. -/
def npSyncReadyBookMarkCnt : Nat := 3

/-- The reconciler state relevant to bookmark-driven cloud sync:
`bookmarkCnt` and `syncedWithCloud` fields of `NetworkPolicyReconciler`. -/
structure SyncGateState where
  bookmarkCnt : Nat
  syncedWithCloud : Bool
deriving DecidableEq, Repr

/-- The initial reconciler sync-gate state: zero bookmarks seen, not synced. -/
def initSyncGateState : SyncGateState := { bookmarkCnt := 0, syncedWithCloud := false }

/-- The `syncWithCloud` gate: returns early when fewer than
`npSyncReadyBookMarkCnt` bookmarks were received, otherwise performs the
blocking synchronization (abstracted) and records `syncedWithCloud = true`.
The returned boolean reports whether a synchronization was performed. -/
def syncWithCloudGate (s : SyncGateState) : SyncGateState × Bool :=
  if s.bookmarkCnt < npSyncReadyBookMarkCnt then (s, false)
  else ({ s with syncedWithCloud := true }, true)

/-- The `processBookMark`: non-bookmark events are ignored; once synced, bookmark
events return immediately; otherwise the bookmark count is incremented and
`syncWithCloud` is attempted.  Second component reports whether a cloud
synchronization ran during this event. -/
def processBookMark (s : SyncGateState) (event : WatchEvent) : SyncGateState × Bool :=
  if event ≠ WatchEvent.bookmark then (s, false)
  else if s.syncedWithCloud then (s, false)
  else syncWithCloudGate { s with bookmarkCnt := s.bookmarkCnt + 1 }

/-- Folds a sequence of watch events through `processBookMark`, counting the
number of cloud synchronizations performed. -/
def runWatchEvents (s : SyncGateState) : List WatchEvent → SyncGateState × Nat
  | [] => (s, 0)
  | e :: es =>
    let r := processBookMark s e
    let rest := runWatchEvents r.1 es
    (rest.1, (if r.2 then 1 else 0) + rest.2)

/-- Number of bookmark events in a watch-event sequence. -/
def bookmarkCount (events : List WatchEvent) : Nat :=
  (events.filter (· = WatchEvent.bookmark)).length

/-! ## Cloud-resource NP tracker (`networkpolicy_cloudresource.go`) -/

/-- The part of `appliedToSecurityGroup` the tracker operations read: the
security-group key (`id.CloudResourceID.String()`) and its `status` error
(`none` models a nil error). -/
structure AppliedToSG where
  sgId : String
  status : Option String
deriving DecidableEq, Repr

/-- Association-list model of a Go `map[string]*appliedToSecurityGroup`. -/
abbrev SGMap := List (String × AppliedToSG)

/-- Membership test of a key in the map (`_, found := m[k]`). -/
def sgMapContains (m : SGMap) (k : String) : Bool :=
  m.any (fun kv => kv.1 == k)

/-- Key deletion (`delete(m, k)`). -/
def sgMapDelete (m : SGMap) (k : String) : SGMap :=
  m.filter (fun kv => kv.1 != k)

/-- Key insertion / replacement (`m[k] = v`). -/
def sgMapInsert (m : SGMap) (k : String) (v : AppliedToSG) : SGMap :=
  (k, v) :: sgMapDelete m k

/-- The `cloudResourceNPTracker` state: the two appliedTo maps and the dirty flag. -/
structure TrackerState where
  appliedToSGs : SGMap
  prevAppliedToSGs : SGMap
  dirty : Bool
deriving DecidableEq

/-- The `newCloudResourceNPTracker` creates a tracker with both maps empty. -/
def newCloudResourceNPTracker : TrackerState :=
  { appliedToSGs := [], prevAppliedToSGs := [], dirty := false }

/-- The `cloudResourceNPTracker.update(sg, isDelete)`: when `found != isDelete` the
update is a duplicate and returns at once; otherwise the tracker is marked
dirty, removed from the indexer, mutated (moving the key between
`appliedToSGs` and `prevAppliedToSGs`), and re-added.  The boolean result
records whether the tracker indexer was touched (the delete/re-add pair). -/
def trackerUpdate (c : TrackerState) (sg : AppliedToSG) (isDelete : Bool) :
    TrackerState × Bool :=
  let found := sgMapContains c.appliedToSGs sg.sgId
  if found ≠ isDelete then (c, false)
  else if isDelete then
    ({ appliedToSGs := sgMapDelete c.appliedToSGs sg.sgId,
       prevAppliedToSGs := sgMapInsert c.prevAppliedToSGs sg.sgId sg,
       dirty := true }, true)
  else
    ({ appliedToSGs := sgMapInsert c.appliedToSGs sg.sgId sg,
       prevAppliedToSGs := sgMapDelete c.prevAppliedToSGs sg.sgId,
       dirty := true }, true)

/-- The mutation `computeNPStatus` performs on the tracker maps: every entry of
`prevAppliedToSGs` whose security group carries a nil `status` is deleted (the
status-map construction itself does not change the tracker). -/
def trackerComputeNPStatus (c : TrackerState) : TrackerState :=
  { c with prevAppliedToSGs := c.prevAppliedToSGs.filter (fun kv => kv.2.status.isSome) }

/-- A tracker operation: an `update(sg, isDelete)` call or a `computeNPStatus`
call. -/
inductive TrackerOp where
  | update (sg : AppliedToSG) (isDelete : Bool)
  | compute
deriving Repr

/-- Applies one tracker operation. -/
def applyTrackerOp (c : TrackerState) : TrackerOp → TrackerState
  | TrackerOp.update sg isDelete => (trackerUpdate c sg isDelete).1
  | TrackerOp.compute => trackerComputeNPStatus c

/-- Runs a sequence of tracker operations from a starting state. -/
def runTrackerOps (c : TrackerState) : List TrackerOp → TrackerState
  | [] => c
  | op :: ops => runTrackerOps (applyTrackerOp c op) ops

/-! ## Rule model (`securitygroup` package) -/

/-- The `securitygroup.CloudResourceID{Name, Vpc}`. -/
structure CloudResourceID where
  name : String
  vpc : String
deriving DecidableEq, Repr

/-- Modelled from the spec: `CloudResourceID.String()` is not under src/; it
renders the identifier deterministically from its two fields.  Only injectivity
on the pair matters to the claims. -/
def crIdStr (c : CloudResourceID) : String :=
  c.name ++ "/" ++ c.vpc

/-- The `securitygroup.IngressRule`: optional protocol and port (Go `*int`),
source CIDRs (rendered `net.IPNet` strings) and peer security groups. -/
structure IngressRule where
  fromPort : Option Int
  fromSrcIP : List String
  fromSecurityGroups : List CloudResourceID
  protocol : Option Int
deriving DecidableEq, Repr

/-- The `securitygroup.EgressRule`. -/
structure EgressRule where
  toPort : Option Int
  toDstIP : List String
  toSecurityGroups : List CloudResourceID
  protocol : Option Int
deriving DecidableEq, Repr

/-- The `securitygroup.Rule` interface: an ingress or an egress rule. -/
inductive RuleU where
  | ingress (r : IngressRule)
  | egress (r : EgressRule)
deriving DecidableEq, Repr

/-! ## Item histogram of `appliedToSecurityGroup.sync` -/

/-- The `items map[string]int` histogram, as an association list (absent keys
count as zero, matching the Go map default). -/
abbrev ItemMap := List (String × Int)

/-- Lookup with the Go zero default. -/
def itemsLookup (items : ItemMap) (k : String) : Int :=
  match items.find? (fun kv => kv.1 == k) with
  | some kv => kv.2
  | none => 0

/-- The `updateCountForItem`: `items[item]--` when `subtract`, else `items[item]++`. -/
def updateCountForItem (item : String) (items : ItemMap) (subtract : Bool) : ItemMap :=
  let d : Int := if subtract then -1 else 1
  if items.any (fun kv => kv.1 == item) then
    items.map (fun kv => if kv.1 == item then (kv.1, kv.2 + d) else kv)
  else
    items ++ [(item, d)]

/-- The `countIngressRuleItems`: adds (or subtracts) the protocol/port item, every
source CIDR and every peer security group of the ingress rule. -/
def countIngressRuleItems (iRule : IngressRule) (items : ItemMap) (subtract : Bool) : ItemMap :=
  let proto := iRule.protocol.getD 0
  let port := iRule.fromPort.getD 0
  let items :=
    if proto > 0 ∨ port > 0 then
      updateCountForItem (s!"protocol={proto},port={port}") items subtract
    else items
  let items := iRule.fromSrcIP.foldl (fun acc ip => updateCountForItem ip acc subtract) items
  iRule.fromSecurityGroups.foldl (fun acc sg => updateCountForItem (crIdStr sg) acc subtract) items

/-- The `countEgressRuleItems`. -/
def countEgressRuleItems (eRule : EgressRule) (items : ItemMap) (subtract : Bool) : ItemMap :=
  let proto := eRule.protocol.getD 0
  let port := eRule.toPort.getD 0
  let items :=
    if proto > 0 ∨ port > 0 then
      updateCountForItem (s!"protocol={proto},port={port}") items subtract
    else items
  let items := eRule.toDstIP.foldl (fun acc ip => updateCountForItem ip acc subtract) items
  eRule.toSecurityGroups.foldl (fun acc sg => updateCountForItem (crIdStr sg) acc subtract) items

/-- The multiset of histogram items contributed by one ingress rule (specifying
`countIngressRuleItems` as a plain item list). -/
def ingressRuleItems (iRule : IngressRule) : List String :=
  let proto := iRule.protocol.getD 0
  let port := iRule.fromPort.getD 0
  (if proto > 0 ∨ port > 0 then [s!"protocol={proto},port={port}"] else [])
    ++ iRule.fromSrcIP ++ iRule.fromSecurityGroups.map crIdStr

/-- The multiset of histogram items contributed by one egress rule. -/
def egressRuleItems (eRule : EgressRule) : List String :=
  let proto := eRule.protocol.getD 0
  let port := eRule.toPort.getD 0
  (if proto > 0 ∨ port > 0 then [s!"protocol={proto},port={port}"] else [])
    ++ eRule.toDstIP ++ eRule.toSecurityGroups.map crIdStr

/-! ## `appliedToSecurityGroup.sync` rule reconciliation -/

/-- The rule-relevant fields of the in-memory `networkPolicy` object. -/
structure NetworkPolicyM where
  rulesReady : Bool
  ingressRules : List IngressRule
  egressRules : List EgressRule
deriving Repr

/-- A `securitygroup.CloudRule` held in the cloud-rule indexer: its hash and
payload (the `AppliedToGrp` string is fixed per sync call). -/
structure CloudRuleM where
  hash : String
  rule : RuleU
deriving DecidableEq, Repr

/-- The rule part of one `SynchronizationContent` item: the observed cloud
ingress and egress rules. -/
structure SyncContentRules where
  ingressRules : List IngressRule
  egressRules : List EgressRule
deriving Repr

/-- The `checkAndUpdateIndexer`: looks the observed rule's hash up in the map of
indexer rules; on a miss the indexer is updated (result `true`), on a hit the
matching entry is removed from the map. -/
def checkAndUpdateIndexer (getHash : RuleU → String) (rule : RuleU)
    (existingRuleMap : List (String × CloudRuleM)) : Bool × List (String × CloudRuleM) :=
  let h := getHash rule
  if existingRuleMap.any (fun kv => kv.1 == h) then
    (false, existingRuleMap.filter (fun kv => kv.1 != h))
  else
    (true, existingRuleMap)

/-- Outcome of the rule-reconciliation part of `appliedToSecurityGroup.sync`. -/
structure SyncRulesResult where
  repush : Bool
  indexerUpdate : Bool
  items : ItemMap
  ruleReady : Bool
  markedDirty : Bool
deriving Repr

/-- The policy-side counting loop of `appliedToSecurityGroup.sync`: +1 for
every item of every (recomputed when necessary) policy's ingress and egress
rules.  `computeRules` (defined outside src/) recomputes the rules of a policy
whose `rulesReady` is unset. -/
def npCountFold (computeRules : NetworkPolicyM → NetworkPolicyM × Bool)
    (nps : List NetworkPolicyM) : ItemMap :=
  nps.foldl (fun acc np =>
    let np := if !np.rulesReady then (computeRules np).1 else np
    let acc := np.ingressRules.foldl (fun a r => countIngressRuleItems r a false) acc
    np.egressRules.foldl (fun a r => countEgressRuleItems r a false) acc) []

/-- The observed cloud rules of a `SynchronizationContent`, in the order the
sync loop visits them (ingress first, then egress). -/
def cloudRuleList (sc : SyncContentRules) : List RuleU :=
  sc.ingressRules.map RuleU.ingress ++ sc.egressRules.map RuleU.egress

/-- Minus-one counting for one observed cloud rule. -/
def countRuleU (r : RuleU) (acc : ItemMap) : ItemMap :=
  match r with
  | RuleU.ingress r => countIngressRuleItems r acc true
  | RuleU.egress r => countEgressRuleItems r acc true

/-- The `cloudRuleMap` built from the cloud-rule indexer entries (hash → rule;
later entries overwrite earlier ones, as in a Go map). -/
def cloudRuleMapOf (indexerRules : List CloudRuleM) : List (String × CloudRuleM) :=
  indexerRules.foldl (fun m cr => (cr.hash, cr) :: m.filter (fun kv => kv.1 != cr.hash)) []

/-- One step of the cloud-rule scan: count the rule's items (subtracting) and
run `checkAndUpdateIndexer`, accumulating the `indexerUpdate` flag. -/
def syncScanStep (getHash : RuleU → String)
    (st : ItemMap × Bool × List (String × CloudRuleM)) (rule : RuleU) :
    ItemMap × Bool × List (String × CloudRuleM) :=
  let items := countRuleU rule st.1
  let r := checkAndUpdateIndexer getHash rule st.2.2
  (items, st.2.1 || r.1, r.2)

/-- The rule-reconciliation part of `appliedToSecurityGroup.sync` (everything
after the membership `syncImpl`): count +1 items of the current policy-derived
rules, −1 items of the observed cloud rules, update the cloud-rule indexer to
match observation, re-push the full rule set (`updateAllRules`) when the
indexer changed or some histogram bucket is non-zero, otherwise flip
`ruleReady` and mark the trackers dirty when at least one policy targets this
group.  `getHash` stands for `CloudRule.GetHash`. -/
def appliedToSyncRules (computeRules : NetworkPolicyM → NetworkPolicyM × Bool)
    (getHash : RuleU → String) (nps : List NetworkPolicyM)
    (indexerRules : List CloudRuleM) (content : Option SyncContentRules)
    (ruleReady0 : Bool) : SyncRulesResult :=
  let items : ItemMap := npCountFold computeRules nps
  match content with
  | none =>
    { repush := true, indexerUpdate := false, items := items,
      ruleReady := ruleReady0, markedDirty := false }
  | some sc =>
    let st := (cloudRuleList sc).foldl (syncScanStep getHash) (items, false, cloudRuleMapOf indexerRules)
    let items := st.1
    let indexerUpdate := st.2.1 || !st.2.2.isEmpty
    if indexerUpdate then
      { repush := true, indexerUpdate := indexerUpdate, items := items,
        ruleReady := ruleReady0, markedDirty := false }
    else if items.any (fun kv => kv.2 ≠ 0) then
      { repush := true, indexerUpdate := indexerUpdate, items := items,
        ruleReady := ruleReady0, markedDirty := false }
    else if nps.isEmpty then
      { repush := false, indexerUpdate := indexerUpdate, items := items,
        ruleReady := ruleReady0, markedDirty := false }
    else
      { repush := false, indexerUpdate := indexerUpdate, items := items,
        ruleReady := true, markedDirty := !ruleReady0 }

/-! ## Go string primitives and cloud rule descriptions
(`GenerateCloudDescription` / `ExtractCloudDescription`) -/

/-- Go strings modelled as character lists. -/
abbrev GoStr := List Char

/-- The `strings.Split` with a single-character separator (all separators used by
the description code — `"/"`, `","`, `":"` — are single characters). -/
def splitOnChar (c : Char) : GoStr → List GoStr
  | [] => [[]]
  | x :: xs =>
    match splitOnChar c xs with
    | [] => [[]]
    | h :: t => if x = c then [] :: h :: t else (x :: h) :: t

/-- The `strings.TrimSpace` (ASCII whitespace; the inputs of interest are ASCII). -/
def trimSpace (s : GoStr) : GoStr :=
  ((s.dropWhile Char.isWhitespace).reverse.dropWhile Char.isWhitespace).reverse

/-- The `securitygroup.CloudRuleDescription{Name, Namespace, AppliedToGroup}`. -/
structure CloudRuleDescription where
  name : GoStr
  nspace : GoStr
  appliedToGroup : GoStr
deriving DecidableEq, Repr

/-- Modelled from the spec: the description field keys (constants `Name`,
`Namespace`, `AppliedToGroup` of the `securitygroup` package, not under src/);
the spec gives the format `"name:<p>,namespace:<ns>,appliedToGroup:<at>"`. -/
def descKeyName : GoStr := "name".toList

/-- Modelled from the spec: the `namespace` description key. -/
def descKeyNamespace : GoStr := "namespace".toList

/-- Modelled from the spec: the `appliedToGroup` description key. -/
def descKeyAppliedToGroup : GoStr := "appliedToGroup".toList

/-- Modelled from the spec: `CloudRuleDescription.String()` is not under src/;
the spec fixes the rendering `"name:<p>,namespace:<ns>,appliedToGroup:<at>"`. -/
def descString (d : CloudRuleDescription) : GoStr :=
  descKeyName ++ ':' :: d.name ++ ',' :: descKeyNamespace ++ ':' :: d.nspace
    ++ ',' :: descKeyAppliedToGroup ++ ':' :: d.appliedToGroup

/-- The `GenerateCloudDescription`: splits the policy's namespaced name on `/`,
fails unless it yields exactly two tokens, and renders the description from
`(tokens[1], tokens[0], appliedToGroup)`.  `none` models the error return. -/
def generateCloudDescription (namespacedName appliedToGroup : GoStr) : Option GoStr :=
  match splitOnChar '/' namespacedName with
  | [t0, t1] => some (descString { name := t1, nspace := t0, appliedToGroup := appliedToGroup })
  | _ => none

/-- The `descMap` construction of `ExtractCloudDescription`: each
comma-separated segment is trimmed and split on `:`; exactly-two-token splits
are inserted into the map (later keys overwrite earlier ones). -/
def extractDescMap (tempSlice : List GoStr) : List (GoStr × GoStr) :=
  tempSlice.foldl (fun m seg =>
    match splitOnChar ':' (trimSpace seg) with
    | [k, v] => (k, v) :: m.filter (fun kv => kv.1 ≠ k)
    | _ => m) []

/-- Go map lookup with the `""` default. -/
def descMapGet (m : List (GoStr × GoStr)) (k : GoStr) : GoStr :=
  match m.find? (fun kv => kv.1 == k) with
  | some kv => kv.2
  | none => []

/-- The `ExtractCloudDescription`: `nil` descriptions and descriptions that do not
split into exactly three comma-separated key:value pairs with non-empty
`name`, `namespace` and `appliedToGroup` values are rejected. -/
def extractCloudDescription (description : Option GoStr) : Option CloudRuleDescription :=
  match description with
  | none => none
  | some s =>
    let tempSlice := splitOnChar ',' s
    if tempSlice.length ≠ 3 then none
    else
      let descMap := extractDescMap tempSlice
      if descMapGet descMap descKeyName = [] ∨ descMapGet descMap descKeyNamespace = []
          ∨ descMapGet descMap descKeyAppliedToGroup = [] then none
      else some { name := descMapGet descMap descKeyName,
                  nspace := descMapGet descMap descKeyNamespace,
                  appliedToGroup := descMapGet descMap descKeyAppliedToGroup }

/-! ## AWS rule realization (`realizeIngressIPPermissions`,
`realizeEgressIPPermissions`, `UpdateSecurityGroupRules`) -/

/-- The `Rule` interface value carried by a `securitygroup.CloudRule`: an
ingress- or egress-typed payload whose pointer may be nil (`none`), which the
realize loops skip via their `rule == nil` check. -/
inductive AwsRulePayload where
  | ingress (r : Option IngressRule)
  | egress (r : Option EgressRule)
deriving DecidableEq, Repr

/-- A `securitygroup.CloudRule` as handed to `UpdateSecurityGroupRules`: the
rule payload and the policy's namespaced name (`NetworkPolicy`) used for the
rule description. -/
structure AwsCloudRule where
  rule : AwsRulePayload
  networkPolicy : GoStr
deriving DecidableEq, Repr

/-- An `ec2.IpPermission`.  The field conversions
(`convertToIPPermissionPort`, `convertToIPPermissionProtocol`,
`convertToEc2IpRanges`) are outside src/; a permission is modelled as the
converted rule payload together with the description embedded in its IP ranges
and user-id/group pairs — a deterministic, injective function of the pair,
which is all the claims use. -/
structure IpPermission where
  payload : RuleU
  description : GoStr
deriving DecidableEq, Repr

/-- Direction of a security-group rule API call. -/
inductive RuleDirection where
  | ingress
  | egress
deriving DecidableEq, Repr

/-- Authorize/revoke discriminator of a security-group rule API call. -/
inductive ApiAction where
  | authorize
  | revoke
deriving DecidableEq, Repr

/-- One authorize/revoke EC2 API request
(`AuthorizeSecurityGroup{In,E}gressInput` / `RevokeSecurityGroup{In,E}gressInput`). -/
structure SgApiCall where
  action : ApiAction
  dir : RuleDirection
  perms : List IpPermission
deriving DecidableEq, Repr

/-- Observable adapter state: the chronological trace of authorize/revoke
requests issued so far and the cloud's current rule set. -/
structure SgApiState where
  trace : List SgApiCall
  ruleSet : Finset IpPermission
deriving DecidableEq

/-- Errors of the rule-update path: a failed description generation or an API
error on the n-th issued request. -/
inductive SgErr where
  | descErr
  | apiErr (idx : Nat)
deriving DecidableEq, Repr

/-- Effect of a successful authorize/revoke on the observable cloud rule set. -/
def applySgCall (ruleSet : Finset IpPermission) (call : SgApiCall) : Finset IpPermission :=
  match call.action with
  | ApiAction.authorize => ruleSet ∪ call.perms.toFinset
  | ApiAction.revoke => ruleSet \ call.perms.toFinset

/-- Issues one authorize/revoke request against the adapter.  `failIdx` is the
failure oracle: the request whose position in the trace equals `failIdx`
returns an error and leaves the cloud rule set unchanged. -/
def doSgApiCall (failIdx : Option Nat) (st : SgApiState) (call : SgApiCall) :
    SgApiState × Option SgErr :=
  let idx := st.trace.length
  if failIdx = some idx then
    ({ st with trace := st.trace ++ [call] }, some (SgErr.apiErr idx))
  else
    ({ trace := st.trace ++ [call], ruleSet := applySgCall st.ruleSet call }, none)

/-- The permission-building loop of `realizeIngressIPPermissions`: typed-nil
rules are skipped, a failing `GenerateCloudDescription` aborts with an error,
and every other rule contributes one `ec2.IpPermission`. -/
def buildIngressPermissions (sgName : GoStr) : List AwsCloudRule → Except SgErr (List IpPermission)
  | [] => Except.ok []
  | obj :: rest =>
    match obj.rule with
    | AwsRulePayload.ingress (some r) =>
      match generateCloudDescription obj.networkPolicy sgName with
      | none => Except.error SgErr.descErr
      | some d =>
        (buildIngressPermissions sgName rest).map
          (fun ps => { payload := RuleU.ingress r, description := d } :: ps)
    | _ => buildIngressPermissions sgName rest

/-- The permission-building loop of `realizeEgressIPPermissions`. -/
def buildEgressPermissions (sgName : GoStr) : List AwsCloudRule → Except SgErr (List IpPermission)
  | [] => Except.ok []
  | obj :: rest =>
    match obj.rule with
    | AwsRulePayload.egress (some r) =>
      match generateCloudDescription obj.networkPolicy sgName with
      | none => Except.error SgErr.descErr
      | some d =>
        (buildEgressPermissions sgName rest).map
          (fun ps => { payload := RuleU.egress r, description := d } :: ps)
    | _ => buildEgressPermissions sgName rest

/-- The `realizeIngressIPPermissions`: builds the permissions; when none result it
returns nil without touching the cloud, otherwise it issues one revoke
(`isDelete`) or authorize request. -/
def realizeIngressIPPermissions (failIdx : Option Nat) (sgName : GoStr)
    (rules : List AwsCloudRule) (isDelete : Bool) (st : SgApiState) :
    SgApiState × Option SgErr :=
  match buildIngressPermissions sgName rules with
  | Except.error e => (st, some e)
  | Except.ok perms =>
    if perms.isEmpty then (st, none)
    else
      doSgApiCall failIdx st
        { action := if isDelete then ApiAction.revoke else ApiAction.authorize,
          dir := RuleDirection.ingress, perms := perms }

/-- The `realizeEgressIPPermissions`. -/
def realizeEgressIPPermissions (failIdx : Option Nat) (sgName : GoStr)
    (rules : List AwsCloudRule) (isDelete : Bool) (st : SgApiState) :
    SgApiState × Option SgErr :=
  match buildEgressPermissions sgName rules with
  | Except.error e => (st, some e)
  | Except.ok perms =>
    if perms.isEmpty then (st, none)
    else
      doSgApiCall failIdx st
        { action := if isDelete then ApiAction.revoke else ApiAction.authorize,
          dir := RuleDirection.egress, perms := perms }

/-- Is the payload an ingress rule (the `case *securitygroup.IngressRule`
branch of the type switch)? -/
def isIngressRule (r : AwsCloudRule) : Bool :=
  match r.rule with
  | AwsRulePayload.ingress _ => true
  | _ => false

/-- Is the payload an egress rule? -/
def isEgressRule (r : AwsCloudRule) : Bool :=
  match r.rule with
  | AwsRulePayload.egress _ => true
  | _ => false

/-- The `awsCloud.UpdateSecurityGroupRules`, from the point where the appliedTo
group's cloud security group has been resolved (the account/service/SG
describe phase issues no authorize/revoke requests): splits `addRules` and
`rmRules` by direction, then executes rmIngress → addIngress → rmEgress →
addEgress; when a step fails, the deferred block replays the inverse of every
completed step — the `rollbackRmIngress`, `rollbackAddIngress`,
`rollbackRmEgress` branches, in that textual order — ignoring rollback errors,
and the original failure is returned. -/
def updateSecurityGroupRules (failIdx : Option Nat) (sgName : GoStr)
    (addRules rmRules : List AwsCloudRule) (st0 : SgApiState) :
    SgApiState × Option SgErr :=
  let addIRule := addRules.filter isIngressRule
  let addERule := addRules.filter isEgressRule
  let rmIRule := rmRules.filter isIngressRule
  let rmERule := rmRules.filter isEgressRule
  let s1 := realizeIngressIPPermissions failIdx sgName rmIRule true st0
  match s1.2 with
  | some e => (s1.1, some e)
  | none =>
    let s2 := realizeIngressIPPermissions failIdx sgName addIRule false s1.1
    match s2.2 with
    | some e =>
      let r1 := realizeIngressIPPermissions failIdx sgName rmIRule false s2.1
      (r1.1, some e)
    | none =>
      let s3 := realizeEgressIPPermissions failIdx sgName rmERule true s2.1
      match s3.2 with
      | some e =>
        let r1 := realizeIngressIPPermissions failIdx sgName rmIRule false s3.1
        let r2 := realizeIngressIPPermissions failIdx sgName addIRule true r1.1
        (r2.1, some e)
      | none =>
        let s4 := realizeEgressIPPermissions failIdx sgName addERule false s3.1
        match s4.2 with
        | some e =>
          let r1 := realizeIngressIPPermissions failIdx sgName rmIRule false s4.1
          let r2 := realizeIngressIPPermissions failIdx sgName addIRule true r1.1
          let r3 := realizeEgressIPPermissions failIdx sgName rmERule false r2.1
          (r3.1, some e)
        | none => (s4.1, none)

/-! ## AWS security-group membership and deletion
(`updateSecurityGroupMembers`, `updateNetworkInterfaceSecurityGroups`,
`DeleteSecurityGroup`) -/

/-- The `securitygroup.CloudResourceType`. -/
inductive CloudResourceType where
  | vm
  | nic
deriving DecidableEq, Repr

/-- The fields of `securitygroup.CloudResource` consumed by the membership
code: resource kind and name. -/
structure MemberResource where
  rtype : CloudResourceType
  name : String
deriving DecidableEq, Repr

/-- An `ec2.SecurityGroup` as seen by the membership code: name and id. -/
structure Ec2Group where
  groupName : String
  groupId : String
deriving DecidableEq, Repr

/-- An `ec2.NetworkInterface`: id, owning instance (`Attachment.InstanceId`,
`none` when unattached) and attached security groups. -/
structure Ec2Nic where
  nicId : String
  instanceId : Option String
  groups : List Ec2Group
deriving DecidableEq, Repr

/-- The cloud-side state of one VPC: its security groups and its network
interfaces. -/
structure Ec2VpcState where
  sgs : List Ec2Group
  nics : List Ec2Nic
deriving Repr

/-- Modelled from the spec: the address-group cloud-name discriminator
(`GetControllerAddressGroupPrefix`, not under src/; the spec names the managed
prefixes `<prefix-AG>` with default prefix `nephe`). -/
def agPfx : String := "nephe-ag-"

/-- Modelled from the spec: the appliedTo-group cloud-name discriminator. -/
def atPfx : String := "nephe-at-"

/-- The `strings.ToLower`, over the underlying character list (the relevant
inputs are ASCII); kernel-computable, unlike `String.toLower`. -/
def goToLower (s : String) : String :=
  String.mk (s.data.map Char.toLower)

/-- The `strings.TrimPrefix`, over the underlying character lists. -/
def goTrimPfx (s pre : String) : String :=
  if pre.data.isPrefixOf s.data then String.mk (s.data.drop pre.data.length) else s

/-- The `IsNepheControllerCreatedSG`: classifies a cloud SG name by the managed
prefixes and returns the bare name. -/
def isNepheControllerCreatedSG (cloudSgName : String) : String × Bool × Bool :=
  let suffix := goTrimPfx cloudSgName agPfx
  if suffix.length < cloudSgName.length then (goToLower suffix, true, false)
  else
    let suffix2 := goTrimPfx cloudSgName atPfx
    if suffix2.length < cloudSgName.length then (goToLower suffix2, false, true)
    else ("", false, false)

/-- Modelled from the spec: `CloudResourceID.GetCloudName(membershipOnly)` is
not under src/; the spec fixes it to
`lower("<prefix-AG or -AT>-<id.name>")`. -/
def getCloudName (name : String) (membershipOnly : Bool) : String :=
  goToLower ((if membershipOnly then agPfx else atPfx) ++ name)

/-- Insertion into a Go `map[string]struct{}` used as a set. -/
def strSetInsert (s : List String) (x : String) : List String :=
  if s.contains x then s else s ++ [x]

/-- The `delete` on a Go string set. -/
def strSetDelete (s : List String) (x : String) : List String :=
  s.filter (fun y => y ≠ x)

/-- The `FindResourcesBasedOnKind`: lower-cased name sets of the member virtual
machines and member network interfaces. -/
def findResourcesBasedOnKind (rs : List MemberResource) : List String × List String :=
  rs.foldl (fun acc r =>
    match r.rtype with
    | CloudResourceType.vm => (strSetInsert acc.1 (goToLower r.name), acc.2)
    | CloudResourceType.nic => (acc.1, strSetInsert acc.2 (goToLower r.name))) ([], [])

/-- The `buildEc2SgsToAttachForCaseMemberOnlySgWithNoATSgAttached`: keep all nephe
and foreign SGs, and add the VPC default SG when no foreign SG remains. -/
def buildEc2SgsToAttach (nepheSgs otherSgs : List String) (vpcDefaultSgID : String) :
    List String :=
  let s := otherSgs.foldl strSetInsert (nepheSgs.foldl strSetInsert [])
  if otherSgs.isEmpty then strSetInsert s vpcDefaultSgID else s

/-- Per-NIC group classification of `updateSecurityGroupMembers`: walks the
NIC's groups accumulating whether the processed SG is attached, the number of
attached appliedTo SGs, and the nephe-created / foreign SG id sets. -/
def classifyNicGroups (groupCloudSgName : String) (groups : List Ec2Group) :
    Bool × Nat × List String × List String :=
  groups.foldl (fun acc g =>
    let cloudSgName := goToLower g.groupName
    let cls := isNepheControllerCreatedSG cloudSgName
    if !cls.2.2 && !cls.2.1 then
      (acc.1, acc.2.1, acc.2.2.1, strSetInsert acc.2.2.2 g.groupId)
    else
      let numAT := if cls.2.2 then acc.2.1 + 1 else acc.2.1
      let isAttached := acc.1 || (cloudSgName == groupCloudSgName)
      (isAttached, numAT, strSetInsert acc.2.2.1 g.groupId, acc.2.2.2)) (false, 0, [], [])

/-- The per-NIC body of `updateSecurityGroupMembers`: decides whether this
NIC's security groups must be modified and computes the replacement set.
Unattached NICs are skipped; a NIC carrying the processed SG but no longer a
member is detached (with the VPC default SG added when it would lose its last
appliedTo SG, or the member-only build when no appliedTo SG is attached); a
member NIC not yet carrying the SG is attached. -/
def processNicForMemberUpdate (groupCloudSgID groupCloudSgName vpcDefaultSgID : String)
    (memberVMs memberNics : List String) (membershipOnly : Bool) (nic : Ec2Nic) :
    Option (String × List String) :=
  match nic.instanceId with
  | none => none
  | some inst =>
    let cls := classifyNicGroups groupCloudSgName nic.groups
    let isGroupSgAttached := cls.1
    let numAT := cls.2.1
    let nepheSet := cls.2.2.1
    let otherSet := cls.2.2.2
    let isNicAttachedToMemberVM := memberVMs.contains inst
    let isNicMemberNetworkInterface := memberNics.contains nic.nicId
    if isGroupSgAttached then
      if !isNicAttachedToMemberVM && !isNicMemberNetworkInterface then
        let s0 := strSetDelete nepheSet groupCloudSgID
        let s1 := if !membershipOnly && numAT = 1 then strSetInsert s0 vpcDefaultSgID else s0
        let s2 := if membershipOnly && numAT = 0 then buildEc2SgsToAttach s0 otherSet vpcDefaultSgID else s1
        some (nic.nicId, s2)
      else none
    else
      if isNicAttachedToMemberVM || isNicMemberNetworkInterface then
        let s0 := strSetInsert nepheSet groupCloudSgID
        let s1 := if membershipOnly && numAT = 0 then buildEc2SgsToAttach s0 otherSet vpcDefaultSgID else s0
        some (nic.nicId, s1)
      else none

/-- The `getVpcDefaultSecurityGroupID`: resolves the VPC's `default` security
group (`none` models the lookup failing, which aborts the caller). -/
def getVpcDefaultSecurityGroupID (st : Ec2VpcState) : Option String :=
  (st.sgs.find? (fun g => goToLower g.groupName == "default")).map (fun g => g.groupId)

/-- An EC2 API request of the membership/deletion path. -/
inductive Ec2ApiCall where
  | modifyNic (nicId : String) (groupIds : List String)
  | deleteSg (groupId : String)
deriving DecidableEq, Repr

/-- The `updateNetworkInterfaceSecurityGroups`: attaches the given SG set to the
NIC, substituting the VPC default SG when the set is empty.  The boolean is
the modify call's success per the failure oracle. -/
def updateNetworkInterfaceSecurityGroups (vpcDefaultSgID : String)
    (modifyFails : String → Bool) (interfaceID : String) (sgIDSet : List String) :
    Ec2ApiCall × Bool :=
  let sgIDs := if sgIDSet.isEmpty then [vpcDefaultSgID] else sgIDSet
  (Ec2ApiCall.modifyNic interfaceID sgIDs, !modifyFails interfaceID)

/-- The `ec2ServiceConfig.updateSecurityGroupMembers`: resolves the VPC default
SG, computes the NICs whose group sets must change, and issues one modify per
such NIC (failures are collected, not short-circuited, mirroring
`processNetworkInterfaceModifyConcurrently`).  Returns the issued calls and
whether every modify succeeded; `Except.error` models the default-SG
resolution failing before any modify. -/
def updateSecurityGroupMembersImpl (st : Ec2VpcState) (modifyFails : String → Bool)
    (groupCloudSgID groupCloudSgName : String) (members : List MemberResource)
    (membershipOnly : Bool) : Except Unit (List Ec2ApiCall × Bool) :=
  match getVpcDefaultSecurityGroupID st with
  | none => Except.error ()
  | some vpcDefaultSgID =>
    let mr := findResourcesBasedOnKind members
    let toModify := st.nics.filterMap
      (processNicForMemberUpdate groupCloudSgID groupCloudSgName vpcDefaultSgID mr.1 mr.2 membershipOnly)
    let results := toModify.map
      (fun p => updateNetworkInterfaceSecurityGroups vpcDefaultSgID modifyFails p.1 p.2)
    Except.ok (results.map Prod.fst, results.all Prod.snd)

/-- The `awsCloud.DeleteSecurityGroup`: looks the derived cloud name up in the
cloud; a missing group returns success with no calls; otherwise the group is
detached from all interfaces via `updateSecurityGroupMembers` with nil members
and, only when that succeeds, the delete request is issued.  Returns the
issued calls in order and whether the overall call returned a nil error. -/
def deleteSecurityGroupImpl (st : Ec2VpcState) (modifyFails : String → Bool)
    (sgName : String) (membershipOnly : Bool) : List Ec2ApiCall × Bool :=
  let cloudSgNameToDelete := getCloudName sgName membershipOnly
  match st.sgs.find? (fun g => goToLower g.groupName == cloudSgNameToDelete) with
  | none => ([], true)
  | some g =>
    match updateSecurityGroupMembersImpl st modifyFails g.groupId cloudSgNameToDelete [] membershipOnly with
    | Except.error _ => ([], false)
    | Except.ok (calls, ok) =>
      if ok then (calls ++ [Ec2ApiCall.deleteSg g.groupId], true)
      else (calls, false)

/-! ## Orphan cleanup pass of `syncWithCloud` -/

/-- One `SynchronizationContent` item as the orphan pass consumes it: the
security group's primary key (`Resource.CloudResourceID.String()`) and its
`MembershipOnly` flag. -/
structure SyncContentItem where
  key : String
  membershipOnly : Bool
deriving DecidableEq, Repr

/-- Result of the snapshot partitioning loop of `syncWithCloud`. -/
structure SnapshotPassResult where
  deletes : List (String × Bool)
  cloudAddrSGs : List String
  cloudAppliedToSGs : List String
deriving DecidableEq, Repr

/-- Does the controller have an entry for this item (`indexer.GetByKey`),
using the address-SG indexer for membership-only items and the appliedTo-SG
indexer otherwise? -/
def snapshotItemKnown (addrIdx atIdx : List String) (c : SyncContentItem) : Bool :=
  if c.membershipOnly then addrIdx.contains c.key else atIdx.contains c.key

/-- The snapshot partitioning loop of `syncWithCloud`: unknown security groups
get a best-effort cloud delete and are skipped; known ones are recorded into
`cloudAddrSGs` / `cloudAppliedToSGs` for the subsequent per-SG sync passes. -/
def syncSnapshotPass (addrIdx atIdx : List String) :
    List SyncContentItem → SnapshotPassResult
  | [] => { deletes := [], cloudAddrSGs := [], cloudAppliedToSGs := [] }
  | c :: rest =>
    let r := syncSnapshotPass addrIdx atIdx rest
    if !snapshotItemKnown addrIdx atIdx c then
      { r with deletes := (c.key, c.membershipOnly) :: r.deletes }
    else if c.membershipOnly then
      { r with cloudAddrSGs := c.key :: r.cloudAddrSGs }
    else
      { r with cloudAppliedToSGs := c.key :: r.cloudAppliedToSGs }

/-! ## Spec-side definitions and concrete example inputs -/

/-- Disjointness of the two tracker maps, keywise. -/

def trackerMapsDisjoint (c : TrackerState) : Prop :=
  ∀ k, (sgMapContains c.appliedToSGs k && sgMapContains c.prevAppliedToSGs k) = false

def bumpEntry (it : String) (d : Int) : String × Int → String × Int :=
  fun kv => if kv.1 == it then (kv.1, kv.2 + d) else kv

/-- Signed occurrence count: the net contribution of one side's item list to a
histogram bucket. -/

def signedCount (sub : Bool) (L : List String) (k : String) : Int :=
  if sub then -(L.count k : Int) else (L.count k : Int)

/-- The item multiset of the current policy-derived rules (one occurrence per
rule item, over every policy targeting the group). -/

def policyItems (nps : List NetworkPolicyM) : List String :=
  nps.flatMap (fun np =>
    np.ingressRules.flatMap ingressRuleItems ++ np.egressRules.flatMap egressRuleItems)

/-- The histogram items of one observed cloud rule. -/

def ruleUItems : RuleU → List String
  | RuleU.ingress r => ingressRuleItems r
  | RuleU.egress r => egressRuleItems r

/-- The item multiset of the observed cloud rules of a
`SynchronizationContent`. -/

def cloudItems (sc : SyncContentRules) : List String :=
  sc.ingressRules.flatMap ingressRuleItems ++ sc.egressRules.flatMap egressRuleItems

/-- Concrete `computeRules` stub for the C3 witness (never invoked: every
witness policy is ready). -/

def c3crW : NetworkPolicyM → NetworkPolicyM × Bool := fun np => (np, true)

/-- Concrete rule-hash function for the C3 witness. -/

def c3ghW : RuleU → String := fun _ => "h0"

/-- Concrete ingress rule for the C3 witness. -/

def c3ruleW : IngressRule :=
  { fromPort := some 22, fromSrcIP := ["10.0.0.0/8"], fromSecurityGroups := [],
    protocol := some 6 }

/-- Concrete policy list for the C3 witness. -/

def c3npsW : List NetworkPolicyM :=
  [{ rulesReady := true, ingressRules := [c3ruleW], egressRules := [] }]

/-- Concrete indexer content for the C3 witness. -/

def c3irW : List CloudRuleM := [{ hash := "h0", rule := RuleU.ingress c3ruleW }]

/-- Concrete observed cloud rules for the C3 witness. -/

def c3scW : SyncContentRules := { ingressRules := [c3ruleW], egressRules := [] }

/-- The permissions `realizeIngressIPPermissions` renders from a rule list
when every description generation succeeds (one `ec2.IpPermission` per
non-nil ingress rule, in order). -/

def ingressPermsOf (sgName : GoStr) : List AwsCloudRule → List IpPermission
  | [] => []
  | obj :: rest =>
    match obj.rule with
    | AwsRulePayload.ingress (some r) =>
      match generateCloudDescription obj.networkPolicy sgName with
      | some d => { payload := RuleU.ingress r, description := d } :: ingressPermsOf sgName rest
      | none => ingressPermsOf sgName rest
    | _ => ingressPermsOf sgName rest

/-- Egress counterpart of `ingressPermsOf`. -/

def egressPermsOf (sgName : GoStr) : List AwsCloudRule → List IpPermission
  | [] => []
  | obj :: rest =>
    match obj.rule with
    | AwsRulePayload.egress (some r) =>
      match generateCloudDescription obj.networkPolicy sgName with
      | some d => { payload := RuleU.egress r, description := d } :: egressPermsOf sgName rest
      | none => egressPermsOf sgName rest
    | _ => egressPermsOf sgName rest

/-- The authorize/revoke request a realize step emits: none when the rendered
permission list is empty, one request otherwise. -/

def optSgCall (a : ApiAction) (d : RuleDirection) (perms : List IpPermission) :
    List SgApiCall :=
  if perms.isEmpty then [] else [{ action := a, dir := d, perms := perms }]

/-- Concrete policy namespaced name for the AWS rule-update examples. -/

def c1npW : GoStr := "ns1/p1".toList

/-- Concrete appliedTo cloud SG name for the AWS rule-update examples. -/

def c1sgNameW : GoStr := "nephe-at-atg1".toList

/-- Rule a (removed ingress). -/

def c1ruleAW : IngressRule :=
  { fromPort := some 22, fromSrcIP := ["10.0.0.0/8"], fromSecurityGroups := [],
    protocol := some 6 }

/-- Rule b (added ingress). -/

def c1ruleBW : IngressRule :=
  { fromPort := some 80, fromSrcIP := ["10.0.0.0/8"], fromSecurityGroups := [],
    protocol := some 6 }

/-- Rule c (removed egress). -/

def c1ruleCW : EgressRule :=
  { toPort := some 443, toDstIP := ["0.0.0.0/0"], toSecurityGroups := [],
    protocol := some 6 }

/-- Rule d (added egress). -/

def c1ruleDW : EgressRule :=
  { toPort := some 8080, toDstIP := ["0.0.0.0/0"], toSecurityGroups := [],
    protocol := some 6 }

/-- Concrete `rmRules` list (rules a and c). -/

def c1rmRulesW : List AwsCloudRule :=
  [{ rule := AwsRulePayload.ingress (some c1ruleAW), networkPolicy := c1npW },
   { rule := AwsRulePayload.egress (some c1ruleCW), networkPolicy := c1npW }]

/-- Concrete `addRules` list (rules b and d). -/

def c1addRulesW : List AwsCloudRule :=
  [{ rule := AwsRulePayload.ingress (some c1ruleBW), networkPolicy := c1npW },
   { rule := AwsRulePayload.egress (some c1ruleDW), networkPolicy := c1npW }]

/-- The description every example rule renders to. -/

def c1descW : GoStr :=
  descString { name := "p1".toList, nspace := "ns1".toList, appliedToGroup := c1sgNameW }

/-- The pre-update cloud rule set: the two removed rules are present. -/

def c1SW : Finset IpPermission :=
  {⟨RuleU.ingress c1ruleAW, c1descW⟩, ⟨RuleU.egress c1ruleCW, c1descW⟩}

/-- The request trace `UpdateSecurityGroupRules` emits when the adapter fails
the k-th step (all four steps rendering non-empty permission lists): the
executed steps 0..k, then the inverses of steps 0..k−1 in the same (forward)
order the deferred rollback block replays them. -/

def expectedForwardRollbackTrace (rmI addI rmE addE : List IpPermission) :
    Nat → List SgApiCall
  | 0 => [⟨ApiAction.revoke, RuleDirection.ingress, rmI⟩]
  | 1 => [⟨ApiAction.revoke, RuleDirection.ingress, rmI⟩,
          ⟨ApiAction.authorize, RuleDirection.ingress, addI⟩,
          ⟨ApiAction.authorize, RuleDirection.ingress, rmI⟩]
  | 2 => [⟨ApiAction.revoke, RuleDirection.ingress, rmI⟩,
          ⟨ApiAction.authorize, RuleDirection.ingress, addI⟩,
          ⟨ApiAction.revoke, RuleDirection.egress, rmE⟩,
          ⟨ApiAction.authorize, RuleDirection.ingress, rmI⟩,
          ⟨ApiAction.revoke, RuleDirection.ingress, addI⟩]
  | 3 => [⟨ApiAction.revoke, RuleDirection.ingress, rmI⟩,
          ⟨ApiAction.authorize, RuleDirection.ingress, addI⟩,
          ⟨ApiAction.revoke, RuleDirection.egress, rmE⟩,
          ⟨ApiAction.authorize, RuleDirection.egress, addE⟩,
          ⟨ApiAction.authorize, RuleDirection.ingress, rmI⟩,
          ⟨ApiAction.revoke, RuleDirection.ingress, addI⟩,
          ⟨ApiAction.authorize, RuleDirection.egress, rmE⟩]
  | _ => []

/-- The request trace the spec's rollback clause predicts for a failure of the
fourth step (`addEgress`): steps 0..3, then the inverses of steps 2, 1, 0 in
reverse order — `authorize(c)⁻¹ … revoke(b)⁻¹ … authorize(a)⁻¹` of the spec's
scenario 4.  This definition follows the spec's words, for comparison with
the trace the code emits. -/

def c1ReverseRollbackTrace (rmI addI rmE addE : List IpPermission) : List SgApiCall :=
  [⟨ApiAction.revoke, RuleDirection.ingress, rmI⟩,
   ⟨ApiAction.authorize, RuleDirection.ingress, addI⟩,
   ⟨ApiAction.revoke, RuleDirection.egress, rmE⟩,
   ⟨ApiAction.authorize, RuleDirection.egress, addE⟩,
   ⟨ApiAction.authorize, RuleDirection.egress, rmE⟩,
   ⟨ApiAction.revoke, RuleDirection.ingress, addI⟩,
   ⟨ApiAction.authorize, RuleDirection.ingress, rmI⟩]

/-- The per-NIC modification plan `DeleteSecurityGroup` induces (members nil):
one entry per network interface whose security groups must change, with the
replacement SG id set. -/

def detachPlans (st : Ec2VpcState) (groupId cloudName dsg : String) (mo : Bool) :
    List (String × List String) :=
  st.nics.filterMap (processNicForMemberUpdate groupId cloudName dsg [] [] mo)

/-- The modify requests and their outcomes for a plan list. -/

def detachResults (mf : String → Bool) (dsg : String)
    (plans : List (String × List String)) : List (Ec2ApiCall × Bool) :=
  plans.map (fun p => updateNetworkInterfaceSecurityGroups dsg mf p.1 p.2)

/-- Concrete one-VPC cloud state for the C7 witness: the default SG, one
managed appliedTo SG, and one instance-backed NIC carrying only the managed
SG. -/

def c7stW : Ec2VpcState :=
  { sgs := [{ groupName := "default", groupId := "sg-def" },
            { groupName := "nephe-at-atg1", groupId := "sg-at1" }],
    nics := [{ nicId := "eni-1", instanceId := some "i-1",
               groups := [{ groupName := "nephe-at-atg1", groupId := "sg-at1" }] }] }

/-! ## Helper lemmas: bookmark gate -/

theorem runWatchEvents_synced (events : List WatchEvent) (s : SyncGateState)
    (h : s.syncedWithCloud = true) : runWatchEvents s events = (s, 0) := by
  induction events with
  | nil => rfl
  | cons e es ih =>
    have hp : processBookMark s e = (s, false) := by
      unfold processBookMark
      split
      · rfl
      · simp [h]
    simp [runWatchEvents, hp, ih]

theorem runWatchEvents_counting (events : List WatchEvent) : ∀ n : Nat,
    n < npSyncReadyBookMarkCnt →
    (runWatchEvents { bookmarkCnt := n, syncedWithCloud := false } events).2 =
      if npSyncReadyBookMarkCnt ≤ n + bookmarkCount events then 1 else 0 := by
  induction events with
  | nil =>
    intro n hn
    have h : ¬ npSyncReadyBookMarkCnt ≤ n + bookmarkCount [] := by
      simp [bookmarkCount]; omega
    simp [runWatchEvents, h]
  | cons e es ih =>
    intro n hn
    by_cases he : e = WatchEvent.bookmark
    · subst he
      have hbc : bookmarkCount (WatchEvent.bookmark :: es) = bookmarkCount es + 1 := by
        simp [bookmarkCount]
      by_cases hlt : n + 1 < npSyncReadyBookMarkCnt
      · have hp : processBookMark { bookmarkCnt := n, syncedWithCloud := false }
            WatchEvent.bookmark =
            ({ bookmarkCnt := n + 1, syncedWithCloud := false }, false) := by
          simp [processBookMark, syncWithCloudGate, hlt]
        have harith : (npSyncReadyBookMarkCnt ≤ n + 1 + bookmarkCount es) ↔
            (npSyncReadyBookMarkCnt ≤ n + (bookmarkCount es + 1)) := by omega
        simp only [runWatchEvents, hp, hbc]
        rw [ih (n + 1) hlt]
        simp [harith]
      · have hge : npSyncReadyBookMarkCnt ≤ n + 1 := by omega
        have hp : processBookMark { bookmarkCnt := n, syncedWithCloud := false }
            WatchEvent.bookmark =
            ({ bookmarkCnt := n + 1, syncedWithCloud := true }, true) := by
          simp [processBookMark, syncWithCloudGate, Nat.not_lt.mpr hge]
        have hcond : npSyncReadyBookMarkCnt ≤ n + bookmarkCount (WatchEvent.bookmark :: es) := by
          rw [hbc]; omega
        have hrest := runWatchEvents_synced es
          { bookmarkCnt := n + 1, syncedWithCloud := true } rfl
        simp [runWatchEvents, hp, hrest, hcond]
    · have hp : processBookMark { bookmarkCnt := n, syncedWithCloud := false } e =
          ({ bookmarkCnt := n, syncedWithCloud := false }, false) := by
        simp [processBookMark, he]
      have hbc : bookmarkCount (e :: es) = bookmarkCount es := by
        simp [bookmarkCount, he]
      simp only [runWatchEvents, hp, hbc]
      rw [ih n hn]
      simp

/-! ## Helper lemmas: tracker maps -/

theorem sgMapContains_iff (m : SGMap) (j : String) :
    sgMapContains m j = true ↔ ∃ kv ∈ m, kv.1 = j := by
  simp [sgMapContains, List.any_eq_true, beq_iff_eq]

theorem sgMapContains_delete_iff (m : SGMap) (k j : String) :
    sgMapContains (sgMapDelete m k) j = true ↔ j ≠ k ∧ sgMapContains m j = true := by
  simp only [sgMapContains_iff, sgMapDelete]
  constructor
  · rintro ⟨kv, hmem, rfl⟩
    have hmem' := List.mem_filter.1 hmem
    refine ⟨?_, kv, hmem'.1, rfl⟩
    simpa [bne_iff_ne] using hmem'.2
  · rintro ⟨hne, kv, hm, rfl⟩
    exact ⟨kv, List.mem_filter.2 ⟨hm, by simpa [bne_iff_ne] using hne⟩, rfl⟩

theorem sgMapContains_insert_iff (m : SGMap) (k : String) (v : AppliedToSG) (j : String) :
    sgMapContains (sgMapInsert m k v) j = true ↔ j = k ∨ sgMapContains m j = true := by
  simp only [sgMapInsert, sgMapContains_iff]
  constructor
  · rintro ⟨kv, hmem, rfl⟩
    rcases List.mem_cons.1 hmem with h | h
    · left; rw [h]
    · right
      exact ⟨kv, (List.mem_filter.1 h).1, rfl⟩
  · rintro (rfl | ⟨kv, hm, rfl⟩)
    · exact ⟨(j, v), List.mem_cons_self _ _, rfl⟩
    · by_cases hk : kv.1 = k
      · exact ⟨(k, v), List.mem_cons_self _ _, hk.symm⟩
      · exact ⟨kv, List.mem_cons_of_mem _
          (List.mem_filter.2 ⟨hm, by simpa [bne_iff_ne] using hk⟩), rfl⟩

theorem sgMapContains_filter_true (m : SGMap) (p : String × AppliedToSG → Bool) (j : String)
    (h : sgMapContains (m.filter p) j = true) : sgMapContains m j = true := by
  rw [sgMapContains_iff] at h ⊢
  rcases h with ⟨kv, hm, rfl⟩
  exact ⟨kv, (List.mem_filter.1 hm).1, rfl⟩

theorem and_false_of_not_both {a b : Bool} (h : ¬(a = true ∧ b = true)) : (a && b) = false := by
  cases a <;> cases b <;> simp_all

theorem trackerUpdate_preserves_disjoint (c : TrackerState) (sg : AppliedToSG)
    (isDelete : Bool) (h : trackerMapsDisjoint c) :
    trackerMapsDisjoint (trackerUpdate c sg isDelete).1 := by
  by_cases hdup : sgMapContains c.appliedToSGs sg.sgId ≠ isDelete
  · simpa [trackerUpdate, hdup] using h
  · cases hd : isDelete with
    | true =>
      subst hd
      simp only [trackerUpdate, hdup, if_false, if_true, ite_true, ite_false]
      intro k
      apply and_false_of_not_both
      rintro ⟨ha, hp⟩
      simp only [not_not] at hdup
      rcases (sgMapContains_delete_iff _ _ _).1 ha with ⟨hne, ha'⟩
      rcases (sgMapContains_insert_iff _ _ _ _).1 hp with rfl | hp'
      · exact hne rfl
      · have hk := h k
        rw [ha', hp'] at hk
        simp at hk
    | false =>
      subst hd
      simp only [trackerUpdate, hdup, if_false, ite_true, ite_false]
      intro k
      apply and_false_of_not_both
      rintro ⟨ha, hp⟩
      simp only [not_not] at hdup
      rcases (sgMapContains_delete_iff _ _ _).1 hp with ⟨hne, hp'⟩
      rcases (sgMapContains_insert_iff _ _ _ _).1 ha with rfl | ha'
      · exact hne rfl
      · have hk := h k
        rw [ha', hp'] at hk
        simp at hk

theorem trackerCompute_preserves_disjoint (c : TrackerState)
    (h : trackerMapsDisjoint c) : trackerMapsDisjoint (trackerComputeNPStatus c) := by
  intro k
  apply and_false_of_not_both
  rintro ⟨ha, hp⟩
  have hp' := sgMapContains_filter_true _ _ _ hp
  have hk := h k
  simp only [trackerComputeNPStatus] at ha
  rw [ha, hp'] at hk
  simp at hk

theorem runTrackerOps_disjoint (ops : List TrackerOp) : ∀ c : TrackerState,
    trackerMapsDisjoint c → trackerMapsDisjoint (runTrackerOps c ops) := by
  induction ops with
  | nil => intro c h; exact h
  | cons op ops ih =>
    intro c h
    refine ih _ ?_
    cases op with
    | update sg isDelete => exact trackerUpdate_preserves_disjoint c sg isDelete h
    | compute => exact trackerCompute_preserves_disjoint c h

/-! ## Helper lemmas: item histogram -/

theorem itemsLookup_cons (a : String) (v : Int) (t : ItemMap) (k : String) :
    itemsLookup ((a, v) :: t) k = if a = k then v else itemsLookup t k := by
  by_cases h : a = k
  · rw [if_pos h]
    unfold itemsLookup
    rw [List.find?_cons_of_pos _ (by simpa [beq_iff_eq] using h)]
  · rw [if_neg h]
    unfold itemsLookup
    rw [List.find?_cons_of_neg _ (by simpa [beq_iff_eq] using h)]

theorem bumpEntry_pair (it : String) (d : Int) (ak : String) (av : Int) :
    bumpEntry it d (ak, av) = (ak, if ak = it then av + d else av) := by
  unfold bumpEntry
  by_cases h : ak = it <;> simp [h]

theorem updateCount_of_any (items : ItemMap) (it : String) (sub : Bool)
    (h : items.any (fun kv => kv.1 == it) = true) :
    updateCountForItem it items sub = items.map (bumpEntry it (if sub then -1 else 1)) := by
  unfold updateCountForItem bumpEntry
  rw [if_pos h]

theorem updateCount_of_not_any (items : ItemMap) (it : String) (sub : Bool)
    (h : items.any (fun kv => kv.1 == it) = false) :
    updateCountForItem it items sub = items ++ [(it, if sub then -1 else 1)] := by
  unfold updateCountForItem
  rw [if_neg (by simp [h])]

theorem itemsLookup_map_bump_ne (t : ItemMap) (it : String) (d : Int) (k : String)
    (h : k ≠ it) : itemsLookup (t.map (bumpEntry it d)) k = itemsLookup t k := by
  induction t with
  | nil => rfl
  | cons a t ih =>
    rcases a with ⟨ak, av⟩
    rw [List.map_cons, bumpEntry_pair, itemsLookup_cons, itemsLookup_cons]
    by_cases hk : ak = k
    · have hne : ¬(ak = it) := by rw [hk]; exact h
      rw [if_pos hk, if_pos hk, if_neg hne]
    · rw [if_neg hk, if_neg hk, ih]

theorem itemsLookup_nil (k : String) : itemsLookup [] k = 0 := rfl

theorem itemsLookup_update (items : ItemMap) (it : String) (sub : Bool) (k : String) :
    itemsLookup (updateCountForItem it items sub) k =
      itemsLookup items k + (if k = it then (if sub then (-1 : Int) else 1) else 0) := by
  induction items with
  | nil =>
    rw [updateCount_of_not_any _ _ _ (by simp), List.nil_append, itemsLookup_cons,
      itemsLookup_nil]
    by_cases hk : k = it
    · rw [if_pos (by rw [hk]), if_pos hk]
      simp
    · rw [if_neg (fun hh => hk hh.symm), if_neg hk]
      simp
  | cons a t ih =>
    rcases a with ⟨ak, av⟩
    by_cases hak : ak = it
    · subst hak
      rw [updateCount_of_any _ _ _ (by simp), List.map_cons, bumpEntry_pair,
        if_pos rfl, itemsLookup_cons, itemsLookup_cons]
      by_cases hk : ak = k
      · rw [if_pos hk, if_pos hk, if_pos (show k = ak from hk.symm)]
      · have hne : ¬(k = ak) := fun hh => hk hh.symm
        rw [if_neg hk, if_neg hk, itemsLookup_map_bump_ne _ _ _ _ hne,
          if_neg hne]
        simp
    · have hstep : updateCountForItem it ((ak, av) :: t) sub =
          (ak, av) :: updateCountForItem it t sub := by
        cases hany : t.any (fun kv => kv.1 == it) with
        | true =>
          rw [updateCount_of_any _ _ _ (by simp [List.any_cons, hany]),
            updateCount_of_any _ _ _ hany, List.map_cons, bumpEntry_pair, if_neg hak]
        | false =>
          rw [updateCount_of_not_any _ _ _ (by
              simp only [List.any_cons, Bool.or_eq_false_iff]
              exact ⟨by simpa [beq_iff_eq] using hak, hany⟩),
            updateCount_of_not_any _ _ _ hany, List.cons_append]
      rw [hstep, itemsLookup_cons, itemsLookup_cons]
      by_cases hk : ak = k
      · have hne : ¬(k = it) := by
          intro hh
          exact hak (by rw [hk, hh])
        rw [if_pos hk, if_pos hk, if_neg hne]
        simp
      · rw [if_neg hk, if_neg hk, ih]

theorem signedCount_nil (sub : Bool) (k : String) : signedCount sub [] k = 0 := by
  cases sub <;> simp [signedCount]

theorem signedCount_cons (sub : Bool) (a : String) (L : List String) (k : String) :
    signedCount sub (a :: L) k =
      (if k = a then (if sub then (-1 : Int) else 1) else 0) + signedCount sub L k := by
  have hc : (a :: L).count k = L.count k + if a == k then 1 else 0 := List.count_cons k a L
  by_cases hk : k = a
  · have : (a == k) = true := by simpa [beq_iff_eq] using hk.symm
    cases sub <;> simp [signedCount, hc, this, hk] <;> push_cast <;> ring
  · have : (a == k) = false := by
      simp only [beq_eq_false_iff_ne, ne_eq]
      exact fun hh => hk hh.symm
    cases sub <;> simp [signedCount, hc, this, hk]

theorem signedCount_append (sub : Bool) (A B : List String) (k : String) :
    signedCount sub (A ++ B) k = signedCount sub A k + signedCount sub B k := by
  cases sub <;> simp [signedCount, List.count_append] <;> push_cast <;> ring

theorem itemsLookup_foldl_update (sub : Bool) (k : String) (L : List String) :
    ∀ items : ItemMap,
    itemsLookup (L.foldl (fun acc it => updateCountForItem it acc sub) items) k =
      itemsLookup items k + signedCount sub L k := by
  induction L with
  | nil => intro items; simp [signedCount_nil]
  | cons a L ih =>
    intro items
    rw [List.foldl_cons, ih, itemsLookup_update, signedCount_cons]
    ring

theorem countIngressRuleItems_eq_fold (r : IngressRule) (items : ItemMap) (sub : Bool) :
    countIngressRuleItems r items sub =
      (ingressRuleItems r).foldl (fun acc it => updateCountForItem it acc sub) items := by
  unfold countIngressRuleItems ingressRuleItems
  rw [List.foldl_append, List.foldl_append, List.foldl_map]
  by_cases h : (r.protocol.getD 0 > 0 ∨ r.fromPort.getD 0 > 0) <;> simp [h]

theorem countEgressRuleItems_eq_fold (r : EgressRule) (items : ItemMap) (sub : Bool) :
    countEgressRuleItems r items sub =
      (egressRuleItems r).foldl (fun acc it => updateCountForItem it acc sub) items := by
  unfold countEgressRuleItems egressRuleItems
  rw [List.foldl_append, List.foldl_append, List.foldl_map]
  by_cases h : (r.protocol.getD 0 > 0 ∨ r.toPort.getD 0 > 0) <;> simp [h]

theorem itemsLookup_countIngress (r : IngressRule) (items : ItemMap) (sub : Bool) (k : String) :
    itemsLookup (countIngressRuleItems r items sub) k =
      itemsLookup items k + signedCount sub (ingressRuleItems r) k := by
  rw [countIngressRuleItems_eq_fold, itemsLookup_foldl_update]

theorem itemsLookup_countEgress (r : EgressRule) (items : ItemMap) (sub : Bool) (k : String) :
    itemsLookup (countEgressRuleItems r items sub) k =
      itemsLookup items k + signedCount sub (egressRuleItems r) k := by
  rw [countEgressRuleItems_eq_fold, itemsLookup_foldl_update]

theorem itemsLookup_foldl_countIngress (sub : Bool) (k : String) (rs : List IngressRule) :
    ∀ items : ItemMap,
    itemsLookup (rs.foldl (fun a r => countIngressRuleItems r a sub) items) k =
      itemsLookup items k + signedCount sub (rs.flatMap ingressRuleItems) k := by
  induction rs with
  | nil => intro items; simp [signedCount_nil]
  | cons r rs ih =>
    intro items
    rw [List.foldl_cons, ih, itemsLookup_countIngress, List.flatMap_cons,
      signedCount_append]
    ring

theorem itemsLookup_foldl_countEgress (sub : Bool) (k : String) (rs : List EgressRule) :
    ∀ items : ItemMap,
    itemsLookup (rs.foldl (fun a r => countEgressRuleItems r a sub) items) k =
      itemsLookup items k + signedCount sub (rs.flatMap egressRuleItems) k := by
  induction rs with
  | nil => intro items; simp [signedCount_nil]
  | cons r rs ih =>
    intro items
    rw [List.foldl_cons, ih, itemsLookup_countEgress, List.flatMap_cons,
      signedCount_append]
    ring

theorem npCountFold_lookup_aux (cr : NetworkPolicyM → NetworkPolicyM × Bool)
    (k : String) (nps : List NetworkPolicyM) (h : ∀ np ∈ nps, np.rulesReady = true) :
    ∀ items : ItemMap,
    itemsLookup (nps.foldl (fun acc np =>
      let np := if !np.rulesReady then (cr np).1 else np
      let acc := np.ingressRules.foldl (fun a r => countIngressRuleItems r a false) acc
      np.egressRules.foldl (fun a r => countEgressRuleItems r a false) acc) items) k =
      itemsLookup items k + signedCount false (policyItems nps) k := by
  induction nps with
  | nil => intro items; simp [policyItems, signedCount_nil]
  | cons np t ih =>
    intro items
    have hr : np.rulesReady = true := h np (List.mem_cons_self _ _)
    have ht : ∀ np ∈ t, np.rulesReady = true := fun x hx => h x (List.mem_cons_of_mem _ hx)
    rw [List.foldl_cons]
    simp only [hr, Bool.not_true, Bool.false_eq_true, if_false]
    rw [ih ht, itemsLookup_foldl_countEgress, itemsLookup_foldl_countIngress]
    simp only [policyItems, List.flatMap_cons, signedCount_append]
    ring

theorem npCountFold_lookup (cr : NetworkPolicyM → NetworkPolicyM × Bool)
    (nps : List NetworkPolicyM) (h : ∀ np ∈ nps, np.rulesReady = true) (k : String) :
    itemsLookup (npCountFold cr nps) k = signedCount false (policyItems nps) k := by
  unfold npCountFold
  rw [npCountFold_lookup_aux cr k nps h []]
  simp [itemsLookup]

theorem itemsLookup_countRuleU (r : RuleU) (items : ItemMap) (k : String) :
    itemsLookup (countRuleU r items) k =
      itemsLookup items k + signedCount true (ruleUItems r) k := by
  cases r with
  | ingress r => exact itemsLookup_countIngress r items true k
  | egress r => exact itemsLookup_countEgress r items true k

theorem scan_items_proj (gh : RuleU → String) (L : List RuleU) :
    ∀ st : ItemMap × Bool × List (String × CloudRuleM),
    (L.foldl (syncScanStep gh) st).1 = L.foldl (fun acc r => countRuleU r acc) st.1 := by
  induction L with
  | nil => intro st; rfl
  | cons r L ih =>
    intro st
    rw [List.foldl_cons, List.foldl_cons, ih]
    rfl

theorem itemsLookup_foldl_countRuleU (k : String) (L : List RuleU) :
    ∀ items : ItemMap,
    itemsLookup (L.foldl (fun acc r => countRuleU r acc) items) k =
      itemsLookup items k + signedCount true (L.flatMap ruleUItems) k := by
  induction L with
  | nil => intro items; simp [signedCount_nil]
  | cons r L ih =>
    intro items
    rw [List.foldl_cons, ih, itemsLookup_countRuleU, List.flatMap_cons,
      signedCount_append]
    ring

theorem cloudRuleList_flatMap (sc : SyncContentRules) :
    (cloudRuleList sc).flatMap ruleUItems = cloudItems sc := by
  simp only [cloudRuleList, cloudItems, List.flatMap_append]
  congr 1 <;> rw [List.flatMap_map] <;> rfl

theorem appliedToSyncRules_items (cr : NetworkPolicyM → NetworkPolicyM × Bool)
    (gh : RuleU → String) (nps : List NetworkPolicyM) (ir : List CloudRuleM)
    (sc : SyncContentRules) (rr0 : Bool) :
    (appliedToSyncRules cr gh nps ir (some sc) rr0).items =
      (cloudRuleList sc).foldl (fun acc r => countRuleU r acc) (npCountFold cr nps) := by
  simp only [appliedToSyncRules]
  split_ifs <;> exact scan_items_proj gh (cloudRuleList sc) _

theorem appliedToSyncRules_lookup (cr : NetworkPolicyM → NetworkPolicyM × Bool)
    (gh : RuleU → String) (nps : List NetworkPolicyM) (ir : List CloudRuleM)
    (sc : SyncContentRules) (rr0 : Bool) (h : ∀ np ∈ nps, np.rulesReady = true)
    (k : String) :
    itemsLookup ((appliedToSyncRules cr gh nps ir (some sc) rr0).items) k =
      ((policyItems nps).count k : Int) - ((cloudItems sc).count k : Int) := by
  rw [appliedToSyncRules_items, itemsLookup_foldl_countRuleU, cloudRuleList_flatMap,
    npCountFold_lookup cr nps h]
  simp [signedCount]
  ring

theorem updateCount_keys_nodup (items : ItemMap) (it : String) (sub : Bool)
    (h : (items.map Prod.fst).Nodup) :
    ((updateCountForItem it items sub).map Prod.fst).Nodup := by
  cases hany : items.any (fun kv => kv.1 == it) with
  | true =>
    rw [updateCount_of_any _ _ _ hany, List.map_map]
    have : (Prod.fst ∘ bumpEntry it (if sub then -1 else 1)) =
        (Prod.fst : String × Int → String) := by
      funext kv
      rcases kv with ⟨a, v⟩
      simp [bumpEntry_pair]
    rw [this]
    exact h
  | false =>
    rw [updateCount_of_not_any _ _ _ hany, List.map_append]
    rw [List.nodup_append]
    refine ⟨h, by simp, ?_⟩
    intro x hx hx2
    simp only [List.map_cons, List.map_nil, List.mem_singleton] at hx2
    subst hx2
    rcases List.mem_map.1 hx with ⟨kv, hkv, rfl⟩
    have htrue : (items.any fun kv2 => kv2.1 == kv.1) = true :=
      List.any_eq_true.2 ⟨kv, hkv, by simp⟩
    rw [htrue] at hany
    cases hany

theorem foldl_update_keys_nodup (sub : Bool) (L : List String) :
    ∀ items : ItemMap, (items.map Prod.fst).Nodup →
    (((L.foldl (fun acc it => updateCountForItem it acc sub) items)).map Prod.fst).Nodup := by
  induction L with
  | nil => intro items h; exact h
  | cons a L ih =>
    intro items h
    rw [List.foldl_cons]
    exact ih _ (updateCount_keys_nodup items a sub h)

theorem countIngress_keys_nodup (r : IngressRule) (items : ItemMap) (sub : Bool)
    (h : (items.map Prod.fst).Nodup) :
    ((countIngressRuleItems r items sub).map Prod.fst).Nodup := by
  rw [countIngressRuleItems_eq_fold]
  exact foldl_update_keys_nodup sub _ items h

theorem countEgress_keys_nodup (r : EgressRule) (items : ItemMap) (sub : Bool)
    (h : (items.map Prod.fst).Nodup) :
    ((countEgressRuleItems r items sub).map Prod.fst).Nodup := by
  rw [countEgressRuleItems_eq_fold]
  exact foldl_update_keys_nodup sub _ items h

theorem countRuleU_keys_nodup (r : RuleU) (items : ItemMap)
    (h : (items.map Prod.fst).Nodup) :
    ((countRuleU r items).map Prod.fst).Nodup := by
  cases r with
  | ingress r => exact countIngress_keys_nodup r items true h
  | egress r => exact countEgress_keys_nodup r items true h

theorem foldl_countRuleU_keys_nodup (L : List RuleU) :
    ∀ items : ItemMap, (items.map Prod.fst).Nodup →
    ((L.foldl (fun acc r => countRuleU r acc) items).map Prod.fst).Nodup := by
  induction L with
  | nil => intro items h; exact h
  | cons r L ih =>
    intro items h
    rw [List.foldl_cons]
    exact ih _ (countRuleU_keys_nodup r items h)

theorem npCountFold_keys_nodup (cr : NetworkPolicyM → NetworkPolicyM × Bool)
    (nps : List NetworkPolicyM) : ((npCountFold cr nps).map Prod.fst).Nodup := by
  unfold npCountFold
  have aux : ∀ (l : List NetworkPolicyM) (items : ItemMap), (items.map Prod.fst).Nodup →
      ((l.foldl (fun acc np =>
        let np := if !np.rulesReady then (cr np).1 else np
        let acc := np.ingressRules.foldl (fun a r => countIngressRuleItems r a false) acc
        np.egressRules.foldl (fun a r => countEgressRuleItems r a false) acc) items).map
          Prod.fst).Nodup := by
    intro l
    induction l with
    | nil => intro items h; exact h
    | cons np t ih =>
      intro items h
      rw [List.foldl_cons]
      refine ih _ ?_
      have h1 : ∀ (rs : List IngressRule) (its : ItemMap), (its.map Prod.fst).Nodup →
          ((rs.foldl (fun a r => countIngressRuleItems r a false) its).map Prod.fst).Nodup := by
        intro rs
        induction rs with
        | nil => intro its hh; exact hh
        | cons r rs ihr =>
          intro its hh
          rw [List.foldl_cons]
          exact ihr _ (countIngress_keys_nodup r its false hh)
      have h2 : ∀ (rs : List EgressRule) (its : ItemMap), (its.map Prod.fst).Nodup →
          ((rs.foldl (fun a r => countEgressRuleItems r a false) its).map Prod.fst).Nodup := by
        intro rs
        induction rs with
        | nil => intro its hh; exact hh
        | cons r rs ihr =>
          intro its hh
          rw [List.foldl_cons]
          exact ihr _ (countEgress_keys_nodup r its false hh)
      exact h2 _ _ (h1 _ _ h)
  exact aux nps [] (by simp)

theorem appliedToSyncRules_items_keys_nodup (cr : NetworkPolicyM → NetworkPolicyM × Bool)
    (gh : RuleU → String) (nps : List NetworkPolicyM) (ir : List CloudRuleM)
    (sc : SyncContentRules) (rr0 : Bool) :
    (((appliedToSyncRules cr gh nps ir (some sc) rr0).items).map Prod.fst).Nodup := by
  rw [appliedToSyncRules_items]
  exact foldl_countRuleU_keys_nodup _ _ (npCountFold_keys_nodup cr nps)

theorem itemsLookup_of_mem_nodup (items : ItemMap) (kv : String × Int)
    (h : (items.map Prod.fst).Nodup) (hm : kv ∈ items) :
    itemsLookup items kv.1 = kv.2 := by
  induction items with
  | nil => cases hm
  | cons a t ih =>
    rcases a with ⟨ak, av⟩
    rcases List.mem_cons.1 hm with rfl | hm'
    · rw [itemsLookup_cons, if_pos rfl]
    · have hne : ak ≠ kv.1 := by
        intro hh
        have : kv.1 ∈ t.map Prod.fst := List.mem_map.2 ⟨kv, hm', rfl⟩
        rw [List.map_cons, List.nodup_cons] at h
        exact h.1 (hh ▸ this)
      rw [itemsLookup_cons, if_neg hne]
      exact ih (by rw [List.map_cons, List.nodup_cons] at h; exact h.2) hm'

theorem itemsAny_iff (items : ItemMap) (h : (items.map Prod.fst).Nodup) :
    (items.any (fun kv => kv.2 ≠ 0)) = true ↔ ∃ k, itemsLookup items k ≠ 0 := by
  constructor
  · intro hany
    rcases List.any_eq_true.1 hany with ⟨kv, hm, hp⟩
    refine ⟨kv.1, ?_⟩
    rw [itemsLookup_of_mem_nodup items kv h hm]
    simpa using hp
  · rintro ⟨k, hk⟩
    unfold itemsLookup at hk
    cases hfind : items.find? (fun kv => kv.1 == k) with
    | none => rw [hfind] at hk; simp at hk
    | some kv =>
      rw [hfind] at hk
      refine List.any_eq_true.2 ⟨kv, List.mem_of_find?_eq_some hfind, ?_⟩
      simpa using hk

theorem appliedToSyncRules_repush (cr : NetworkPolicyM → NetworkPolicyM × Bool)
    (gh : RuleU → String) (nps : List NetworkPolicyM) (ir : List CloudRuleM)
    (sc : SyncContentRules) (rr0 : Bool) :
    (appliedToSyncRules cr gh nps ir (some sc) rr0).repush =
      ((appliedToSyncRules cr gh nps ir (some sc) rr0).indexerUpdate ||
        (appliedToSyncRules cr gh nps ir (some sc) rr0).items.any (fun kv => kv.2 ≠ 0)) := by
  simp only [appliedToSyncRules]
  split_ifs with h1 h2 h3
  · dsimp only
    rw [h1, Bool.true_or]
  · dsimp only
    rw [h2, Bool.or_true]
  · dsimp only
    simp only [Bool.not_eq_true] at h1 h2
    rw [h1, h2, Bool.or_false]
  · dsimp only
    simp only [Bool.not_eq_true] at h1 h2
    rw [h1, h2, Bool.or_false]

theorem appliedToSyncRules_ready (cr : NetworkPolicyM → NetworkPolicyM × Bool)
    (gh : RuleU → String) (nps : List NetworkPolicyM) (ir : List CloudRuleM)
    (sc : SyncContentRules) (rr0 : Bool) (hnempty : nps ≠ [])
    (hno : (appliedToSyncRules cr gh nps ir (some sc) rr0).repush = false) :
    (appliedToSyncRules cr gh nps ir (some sc) rr0).ruleReady = true ∧
      (appliedToSyncRules cr gh nps ir (some sc) rr0).markedDirty = !rr0 := by
  simp only [appliedToSyncRules] at hno ⊢
  split_ifs at hno ⊢ with h1 h2 h3
  · exact absurd (List.isEmpty_iff.1 h3) hnempty
  · exact ⟨rfl, rfl⟩

/-- C3: during appliedTo-SG sync with observed cloud content, the histogram is
the itemwise difference between the policy-derived rules (+1 each) and the
observed cloud rules (−1 each); the full rule set is re-pushed iff the
cloud-rule indexer was updated or some bucket is non-zero; and with no drift
and at least one policy targeting the group, `ruleReady` flips to true and the
trackers are marked dirty on the transition. -/

theorem claim_C3 (cr : NetworkPolicyM → NetworkPolicyM × Bool) (gh : RuleU → String)
    (nps : List NetworkPolicyM) (ir : List CloudRuleM) (sc : SyncContentRules)
    (rr0 : Bool) (hready : ∀ np ∈ nps, np.rulesReady = true) :
    (∀ k, itemsLookup ((appliedToSyncRules cr gh nps ir (some sc) rr0).items) k =
        ((policyItems nps).count k : Int) - ((cloudItems sc).count k : Int)) ∧
    ((appliedToSyncRules cr gh nps ir (some sc) rr0).repush = true ↔
      ((appliedToSyncRules cr gh nps ir (some sc) rr0).indexerUpdate = true ∨
        ∃ k, (policyItems nps).count k ≠ (cloudItems sc).count k)) ∧
    ((appliedToSyncRules cr gh nps ir (some sc) rr0).repush = false → nps ≠ [] →
      (appliedToSyncRules cr gh nps ir (some sc) rr0).ruleReady = true ∧
        (appliedToSyncRules cr gh nps ir (some sc) rr0).markedDirty = !rr0) := by
  have hlook := fun k => appliedToSyncRules_lookup cr gh nps ir sc rr0 hready k
  refine ⟨hlook, ?_, fun hno hne => appliedToSyncRules_ready cr gh nps ir sc rr0 hne hno⟩
  rw [appliedToSyncRules_repush, Bool.or_eq_true]
  have hnodup := appliedToSyncRules_items_keys_nodup cr gh nps ir sc rr0
  rw [itemsAny_iff _ hnodup]
  have hconv : (∃ k, itemsLookup ((appliedToSyncRules cr gh nps ir (some sc) rr0).items) k ≠ 0)
      ↔ (∃ k, (policyItems nps).count k ≠ (cloudItems sc).count k) := by
    constructor
    · rintro ⟨k, hk⟩
      refine ⟨k, fun hh => hk ?_⟩
      rw [hlook k, hh]
      ring
    · rintro ⟨k, hk⟩
      refine ⟨k, fun hh => hk ?_⟩
      rw [hlook k] at hh
      have h0 : ((policyItems nps).count k : Int) = ((cloudItems sc).count k : Int) := by
        omega
      exact_mod_cast h0
  exact or_congr Iff.rfl hconv

theorem claim_C3_witness :
    (appliedToSyncRules c3crW c3ghW c3npsW c3irW (some c3scW) false).ruleReady = true ∧
    (appliedToSyncRules c3crW c3ghW c3npsW c3irW (some c3scW) false).markedDirty = true := by
  have h := (claim_C3 c3crW c3ghW c3npsW c3irW c3scW false (by decide)).2.2
    (by decide) (by simp [c3npsW])
  exact ⟨h.1, h.2⟩

/-- C4: starting from the initial reconciler state, a watch-event sequence
triggers no bookmark-driven cloud sync while fewer than
`npSyncReadyBookMarkCnt` bookmarks have been received, and exactly one sync as
soon as the threshold is reached, with later bookmarks never re-triggering
it. -/

theorem claim_C4 (events : List WatchEvent) :
    (runWatchEvents initSyncGateState events).2 =
      if npSyncReadyBookMarkCnt ≤ bookmarkCount events then 1 else 0 := by
  have h := runWatchEvents_counting events 0 (by decide)
  simpa [initSyncGateState] using h

/-- C5: `cloudResourceNPTracker.update(sg, isDelete)` is idempotent on
`(sg.id, isDelete)` — repeating an update is a duplicate that returns with no
state change and no indexer touch — a duplicate update has no side effect at
all, and every non-duplicate update marks the tracker dirty. -/

theorem claim_C5 (c : TrackerState) (sg : AppliedToSG) (d : Bool) :
    trackerUpdate (trackerUpdate c sg d).1 sg d = ((trackerUpdate c sg d).1, false) ∧
    (trackerUpdate c sg d).1.dirty =
      (if sgMapContains c.appliedToSGs sg.sgId = d then true else c.dirty) ∧
    (sgMapContains c.appliedToSGs sg.sgId ≠ d → trackerUpdate c sg d = (c, false)) := by
  by_cases hdup : sgMapContains c.appliedToSGs sg.sgId = d
  · cases d with
    | true =>
      have hupd : trackerUpdate c sg true =
          ({ appliedToSGs := sgMapDelete c.appliedToSGs sg.sgId,
             prevAppliedToSGs := sgMapInsert c.prevAppliedToSGs sg.sgId sg,
             dirty := true }, true) := by
        simp [trackerUpdate, hdup]
      have hA : sgMapContains (sgMapDelete c.appliedToSGs sg.sgId) sg.sgId = false := by
        rw [← Bool.not_eq_true]
        intro hh
        exact ((sgMapContains_delete_iff _ _ _).1 hh).1 rfl
      refine ⟨?_, ?_, fun h => absurd hdup h⟩
      · have h1 : (trackerUpdate c sg true).1 =
            { appliedToSGs := sgMapDelete c.appliedToSGs sg.sgId,
              prevAppliedToSGs := sgMapInsert c.prevAppliedToSGs sg.sgId sg,
              dirty := true } := by rw [hupd]
        rw [h1]
        simp [trackerUpdate, hA]
      · simp [hupd, hdup]
    | false =>
      have hupd : trackerUpdate c sg false =
          ({ appliedToSGs := sgMapInsert c.appliedToSGs sg.sgId sg,
             prevAppliedToSGs := sgMapDelete c.prevAppliedToSGs sg.sgId,
             dirty := true }, true) := by
        simp [trackerUpdate, hdup]
      have hA : sgMapContains (sgMapInsert c.appliedToSGs sg.sgId sg) sg.sgId = true :=
        (sgMapContains_insert_iff _ _ _ _).2 (Or.inl rfl)
      refine ⟨?_, ?_, fun h => absurd hdup h⟩
      · have h1 : (trackerUpdate c sg false).1 =
            { appliedToSGs := sgMapInsert c.appliedToSGs sg.sgId sg,
              prevAppliedToSGs := sgMapDelete c.prevAppliedToSGs sg.sgId,
              dirty := true } := by rw [hupd]
        rw [h1]
        simp [trackerUpdate, hA]
      · simp [hupd, hdup]
  · have hupd : trackerUpdate c sg d = (c, false) := by
      simp [trackerUpdate, hdup]
    refine ⟨?_, ?_, fun _ => hupd⟩
    · simp [hupd]
    · simp [hupd, hdup]

theorem claim_C5_witness :
    trackerUpdate newCloudResourceNPTracker { sgId := "sg1", status := none } true =
      (newCloudResourceNPTracker, false) :=
  (claim_C5 newCloudResourceNPTracker { sgId := "sg1", status := none } true).2.2
    (by decide)

/-- C6: over every sequence of `update` and `computeNPStatus` operations from
a fresh tracker, no security-group key is ever present in both `appliedToSGs`
and `prevAppliedToSGs`. -/

theorem claim_C6 (ops : List TrackerOp) (k : String) :
    (sgMapContains (runTrackerOps newCloudResourceNPTracker ops).appliedToSGs k &&
      sgMapContains (runTrackerOps newCloudResourceNPTracker ops).prevAppliedToSGs k) =
      false := by
  have hinit : trackerMapsDisjoint newCloudResourceNPTracker := by
    intro j
    simp [newCloudResourceNPTracker, sgMapContains]
  exact runTrackerOps_disjoint ops newCloudResourceNPTracker hinit k

/-! ## Helper lemmas: snapshot orphan pass -/

theorem syncSnapshotPass_eq (addrIdx atIdx : List String)
    (contents : List SyncContentItem) :
    (syncSnapshotPass addrIdx atIdx contents).deletes =
      (contents.filter (fun c => !snapshotItemKnown addrIdx atIdx c)).map
        (fun c => (c.key, c.membershipOnly)) ∧
    (syncSnapshotPass addrIdx atIdx contents).cloudAddrSGs =
      (contents.filter (fun c => snapshotItemKnown addrIdx atIdx c && c.membershipOnly)).map
        (fun c => c.key) ∧
    (syncSnapshotPass addrIdx atIdx contents).cloudAppliedToSGs =
      (contents.filter (fun c => snapshotItemKnown addrIdx atIdx c && !c.membershipOnly)).map
        (fun c => c.key) := by
  induction contents with
  | nil => exact ⟨rfl, rfl, rfl⟩
  | cons c rest ih =>
    obtain ⟨ih1, ih2, ih3⟩ := ih
    by_cases hk : snapshotItemKnown addrIdx atIdx c = true
    · by_cases hm : c.membershipOnly = true
      · refine ⟨?_, ?_, ?_⟩ <;>
          simp [syncSnapshotPass, List.filter_cons, hk, hm, ih1, ih2, ih3]
      · refine ⟨?_, ?_, ?_⟩ <;>
          simp [syncSnapshotPass, List.filter_cons, hk, hm, ih1, ih2, ih3]
    · have hk' : snapshotItemKnown addrIdx atIdx c = false := by
        simpa using hk
      refine ⟨?_, ?_, ?_⟩ <;>
        simp [syncSnapshotPass, List.filter_cons, hk', ih1, ih2, ih3]

/-- C9: the snapshot partitioning loop of `syncWithCloud` issues one
best-effort delete for exactly the reported managed security groups that the
corresponding indexer does not know, never allows them into the
`cloudAddrSGs`/`cloudAppliedToSGs` maps used by the per-SG sync passes, and
issues no delete when every reported group is known. -/

theorem claim_C9 (addrIdx atIdx : List String) (contents : List SyncContentItem) :
    (syncSnapshotPass addrIdx atIdx contents).deletes =
      (contents.filter (fun c => !snapshotItemKnown addrIdx atIdx c)).map
        (fun c => (c.key, c.membershipOnly)) ∧
    (syncSnapshotPass addrIdx atIdx contents).cloudAddrSGs =
      (contents.filter (fun c => snapshotItemKnown addrIdx atIdx c && c.membershipOnly)).map
        (fun c => c.key) ∧
    (syncSnapshotPass addrIdx atIdx contents).cloudAppliedToSGs =
      (contents.filter (fun c => snapshotItemKnown addrIdx atIdx c && !c.membershipOnly)).map
        (fun c => c.key) ∧
    ((∀ c ∈ contents, snapshotItemKnown addrIdx atIdx c = true) →
      (syncSnapshotPass addrIdx atIdx contents).deletes = []) := by
  obtain ⟨h1, h2, h3⟩ := syncSnapshotPass_eq addrIdx atIdx contents
  refine ⟨h1, h2, h3, fun hall => ?_⟩
  rw [h1]
  have hnil : contents.filter (fun c => !snapshotItemKnown addrIdx atIdx c) = [] := by
    rw [List.filter_eq_nil_iff]
    intro a ha
    simp [hall a ha]
  rw [hnil]
  rfl

theorem claim_C9_witness :
    (syncSnapshotPass ["sg1"] [] [{ key := "sg1", membershipOnly := true }]).deletes = [] :=
  (claim_C9 ["sg1"] [] [{ key := "sg1", membershipOnly := true }]).2.2.2 (by decide)

/-! ## Helper lemmas: cloud rule descriptions -/

theorem splitOnChar_ne_nil (c : Char) (s : GoStr) : splitOnChar c s ≠ [] := by
  cases s with
  | nil => simp [splitOnChar]
  | cons x xs =>
    unfold splitOnChar
    cases h : splitOnChar c xs with
    | nil => simp
    | cons hh tt =>
      by_cases hx : x = c <;> simp [hx]

theorem splitOnChar_not_mem (c : Char) (s : GoStr) (h : c ∉ s) : splitOnChar c s = [s] := by
  induction s with
  | nil => rfl
  | cons x xs ih =>
    have hx : x ≠ c := fun hh => h (hh ▸ List.mem_cons_self _ _)
    have hxs : c ∉ xs := fun hh => h (List.mem_cons_of_mem _ hh)
    unfold splitOnChar
    rw [ih hxs]
    simp [fun hh => hx hh]

theorem splitOnChar_append (c : Char) (a rest : GoStr) (h : c ∉ a) :
    splitOnChar c (a ++ c :: rest) = a :: splitOnChar c rest := by
  induction a with
  | nil =>
    simp only [List.nil_append]
    cases hs : splitOnChar c rest with
    | nil => exact absurd hs (splitOnChar_ne_nil c rest)
    | cons hh tt =>
      conv_lhs => rw [splitOnChar, hs]
      simp [hs]
  | cons x a ih =>
    have hx : x ≠ c := fun hh => h (hh ▸ List.mem_cons_self _ _)
    have ha : c ∉ a := fun hh => h (List.mem_cons_of_mem _ hh)
    simp only [List.cons_append]
    conv_lhs => rw [splitOnChar, ih ha]
    simp [hx]

theorem dropWhile_eq_self_of_head (p : Char → Bool) (l : GoStr)
    (h : ∀ x, l.head? = some x → p x = false) : l.dropWhile p = l := by
  cases l with
  | nil => rfl
  | cons x xs =>
    rw [List.dropWhile_cons, h x rfl]
    simp

theorem trimSpace_eq_self (s : GoStr)
    (h1 : ∀ x, s.head? = some x → x.isWhitespace = false)
    (h2 : ∀ x, s.getLast? = some x → x.isWhitespace = false) : trimSpace s = s := by
  unfold trimSpace
  rw [dropWhile_eq_self_of_head _ _ h1]
  rw [dropWhile_eq_self_of_head _ _ (by
    intro x hx
    exact h2 x (by rwa [← List.head?_reverse]))]
  exact List.reverse_reverse s

theorem getLast?_append_right (A B : GoStr) (hB : B ≠ []) :
    (A ++ B).getLast? = B.getLast? := by
  rw [List.getLast?_append]
  cases hb : B.getLast? with
  | none => exact absurd (List.getLast?_eq_none_iff.1 hb) hB
  | some x => rfl

theorem seg_getLast? (key : GoStr) (c : Char) (field : GoStr) (hf : field ≠ []) :
    (key ++ c :: field).getLast? = field.getLast? := by
  rw [getLast?_append_right _ _ (by simp)]
  rw [show (c :: field) = [c] ++ field from rfl]
  rw [getLast?_append_right _ _ hf]

theorem descString_decomp (d : CloudRuleDescription) :
    descString d = (descKeyName ++ ':' :: d.name) ++ ',' ::
      ((descKeyNamespace ++ ':' :: d.nspace) ++ ',' ::
        (descKeyAppliedToGroup ++ ':' :: d.appliedToGroup)) := by
  simp [descString, List.append_assoc]

theorem comma_not_mem_seg (key field : GoStr) (hkey : ',' ∉ key) (hf : ',' ∉ field) :
    ',' ∉ (key ++ ':' :: field) := by
  intro hmem
  rcases List.mem_append.1 hmem with h | h
  · exact hkey h
  · rcases List.mem_cons.1 h with h | h
    · cases h
    · exact hf h

theorem descString_split (p ns atg : GoStr) (hpc : ',' ∉ p) (hnsc : ',' ∉ ns)
    (hatc : ',' ∉ atg) :
    splitOnChar ',' (descString { name := p, nspace := ns, appliedToGroup := atg }) =
      [descKeyName ++ ':' :: p, descKeyNamespace ++ ':' :: ns,
        descKeyAppliedToGroup ++ ':' :: atg] := by
  rw [descString_decomp]
  rw [splitOnChar_append _ _ _ (comma_not_mem_seg _ _ (by decide) hpc)]
  rw [splitOnChar_append _ _ _ (comma_not_mem_seg _ _ (by decide) hnsc)]
  rw [splitOnChar_not_mem _ _ (comma_not_mem_seg _ _ (by decide) hatc)]

theorem seg_trim (key field : GoStr) (hne : key ≠ [])
    (hhead : ∀ x, key.head? = some x → x.isWhitespace = false)
    (hf : field ≠ [])
    (hlast : ∀ x, field.getLast? = some x → x.isWhitespace = false) :
    trimSpace (key ++ ':' :: field) = key ++ ':' :: field := by
  apply trimSpace_eq_self
  · intro x hx
    apply hhead
    cases key with
    | nil => exact absurd rfl hne
    | cons k ks => simpa using hx
  · intro x hx
    apply hlast
    rwa [seg_getLast? _ _ _ hf] at hx

theorem seg_split_colon (key field : GoStr) (hkey : ':' ∉ key) (hfield : ':' ∉ field) :
    splitOnChar ':' (key ++ ':' :: field) = [key, field] := by
  rw [splitOnChar_append _ _ _ hkey, splitOnChar_not_mem _ _ hfield]

theorem extract_roundtrip (p ns atg : GoStr)
    (hp : p ≠ []) (hns : ns ≠ []) (hatg : atg ≠ [])
    (hpc : ',' ∉ p) (hpcol : ':' ∉ p)
    (hnsc : ',' ∉ ns) (hnscol : ':' ∉ ns)
    (hatc : ',' ∉ atg) (hatcol : ':' ∉ atg)
    (hpw : ∀ x, p.getLast? = some x → x.isWhitespace = false)
    (hnsw : ∀ x, ns.getLast? = some x → x.isWhitespace = false)
    (hatw : ∀ x, atg.getLast? = some x → x.isWhitespace = false) :
    extractCloudDescription (some (descString { name := p, nspace := ns, appliedToGroup := atg })) =
      some { name := p, nspace := ns, appliedToGroup := atg } := by
  unfold extractCloudDescription
  dsimp only
  rw [descString_split p ns atg hpc hnsc hatc]
  have ht1 := seg_trim descKeyName p (by decide) (by decide) hp hpw
  have ht2 := seg_trim descKeyNamespace ns (by decide) (by decide) hns hnsw
  have ht3 := seg_trim descKeyAppliedToGroup atg (by decide) (by decide) hatg hatw
  have hs1 := seg_split_colon descKeyName p (by decide) hpcol
  have hs2 := seg_split_colon descKeyNamespace ns (by decide) hnscol
  have hs3 := seg_split_colon descKeyAppliedToGroup atg (by decide) hatcol
  have hmap : extractDescMap [descKeyName ++ ':' :: p, descKeyNamespace ++ ':' :: ns,
      descKeyAppliedToGroup ++ ':' :: atg] =
      [(descKeyAppliedToGroup, atg), (descKeyNamespace, ns), (descKeyName, p)] := by
    unfold extractDescMap
    rw [List.foldl_cons, List.foldl_cons, List.foldl_cons, List.foldl_nil]
    rw [ht1, hs1]
    rw [ht2, hs2]
    rw [ht3, hs3]
    simp [show (decide (descKeyName = descKeyNamespace)) = false from by decide,
      show (decide (descKeyName = descKeyAppliedToGroup)) = false from by decide,
      show (decide (descKeyNamespace = descKeyAppliedToGroup)) = false from by decide]
  rw [hmap]
  have hb1 : (descKeyAppliedToGroup == descKeyName) = false := by decide
  have hb2 : (descKeyNamespace == descKeyName) = false := by decide
  have hb3 : (descKeyName == descKeyName) = true := by decide
  have hb4 : (descKeyAppliedToGroup == descKeyNamespace) = false := by decide
  have hb5 : (descKeyNamespace == descKeyNamespace) = true := by decide
  have hb6 : (descKeyAppliedToGroup == descKeyAppliedToGroup) = true := by decide
  have hg1 : descMapGet [(descKeyAppliedToGroup, atg), (descKeyNamespace, ns),
      (descKeyName, p)] descKeyName = p := by
    simp [descMapGet, List.find?, hb1, hb2, hb3]
  have hg2 : descMapGet [(descKeyAppliedToGroup, atg), (descKeyNamespace, ns),
      (descKeyName, p)] descKeyNamespace = ns := by
    simp [descMapGet, List.find?, hb4, hb5]
  have hg3 : descMapGet [(descKeyAppliedToGroup, atg), (descKeyNamespace, ns),
      (descKeyName, p)] descKeyAppliedToGroup = atg := by
    simp [descMapGet, List.find?, hb6]
  simp [hg1, hg2, hg3, hp, hns, hatg]

theorem generate_eq (p ns atg : GoStr) (hns : '/' ∉ ns) (hp : '/' ∉ p) :
    generateCloudDescription (ns ++ '/' :: p) atg =
      some (descString { name := p, nspace := ns, appliedToGroup := atg }) := by
  unfold generateCloudDescription
  rw [splitOnChar_append _ _ _ hns, splitOnChar_not_mem _ _ hp]

theorem generate_none_iff (nn atg : GoStr) :
    generateCloudDescription nn atg = none ↔ (splitOnChar '/' nn).length ≠ 2 := by
  cases hl : splitOnChar '/' nn with
  | nil => simp [generateCloudDescription, hl]
  | cons a t =>
    cases t with
    | nil => simp [generateCloudDescription, hl]
    | cons b t2 =>
      cases t2 with
      | nil => simp [generateCloudDescription, hl]
      | cons c t3 =>
        simp [generateCloudDescription, hl]

/-- C8 counterexample: the namespaced name `"a/b "` and group `"c"` satisfy
the claim's hypotheses (non-empty parts, no `,` or `:` anywhere), generation
succeeds, yet extraction returns `"b"` instead of the original name `"b "`,
because `ExtractCloudDescription` trims whitespace from every comma-separated
segment.  So the round trip of the claim fails at this input. -/

theorem claim_C8_counterexample :
    generateCloudDescription ("a/b ".toList) ("c".toList) =
      some ("name:b ,namespace:a,appliedToGroup:c".toList) ∧
    extractCloudDescription (some ("name:b ,namespace:a,appliedToGroup:c".toList)) =
      some { name := "b".toList, nspace := "a".toList, appliedToGroup := "c".toList } ∧
    ("b".toList : GoStr) ≠ "b ".toList ∧
    (',' ∉ ("b ".toList : GoStr) ∧ ':' ∉ ("b ".toList : GoStr)) ∧
    (',' ∉ ("a".toList : GoStr) ∧ ':' ∉ ("a".toList : GoStr)) ∧
    (',' ∉ ("c".toList : GoStr) ∧ ':' ∉ ("c".toList : GoStr)) :=
  ⟨by decide, by decide, by decide, by decide, by decide, by decide⟩

/-- C8 (amended): for a namespaced name `<ns>/<name>` whose parts are
non-empty, contain no `/`, `,` or `:`, and — as extraction trims each
comma-separated segment — do not end in whitespace, and a non-empty appliedTo
group name likewise without `,`, `:` or trailing whitespace, generation
succeeds with the deterministic rendering and extraction recovers exactly the
original triple; and `GenerateCloudDescription` fails iff the namespaced name
does not split into exactly two `/`-separated tokens. -/

theorem claim_C8_amended (p ns atg : GoStr)
    (hp : p ≠ []) (hns : ns ≠ []) (hatg : atg ≠ [])
    (hpsl : '/' ∉ p) (hnssl : '/' ∉ ns)
    (hpc : ',' ∉ p) (hpcol : ':' ∉ p)
    (hnsc : ',' ∉ ns) (hnscol : ':' ∉ ns)
    (hatc : ',' ∉ atg) (hatcol : ':' ∉ atg)
    (hpw : ∀ x, p.getLast? = some x → x.isWhitespace = false)
    (hnsw : ∀ x, ns.getLast? = some x → x.isWhitespace = false)
    (hatw : ∀ x, atg.getLast? = some x → x.isWhitespace = false) :
    generateCloudDescription (ns ++ '/' :: p) atg =
      some (descString { name := p, nspace := ns, appliedToGroup := atg }) ∧
    extractCloudDescription
        (some (descString { name := p, nspace := ns, appliedToGroup := atg })) =
      some { name := p, nspace := ns, appliedToGroup := atg } ∧
    (∀ nn atg2 : GoStr,
      generateCloudDescription nn atg2 = none ↔ (splitOnChar '/' nn).length ≠ 2) :=
  ⟨generate_eq p ns atg hnssl hpsl,
   extract_roundtrip p ns atg hp hns hatg hpc hpcol hnsc hnscol hatc hatcol hpw hnsw hatw,
   fun nn atg2 => generate_none_iff nn atg2⟩

theorem claim_C8_amended_witness :
    generateCloudDescription ("a/b".toList) ("c".toList) =
      some (descString ⟨"b".toList, "a".toList, "c".toList⟩) ∧
    extractCloudDescription (some (descString ⟨"b".toList, "a".toList, "c".toList⟩)) =
      some ⟨"b".toList, "a".toList, "c".toList⟩ := by
  have h := claim_C8_amended ("b".toList) ("a".toList) ("c".toList)
    (by decide) (by decide) (by decide) (by decide) (by decide)
    (by decide) (by decide) (by decide) (by decide) (by decide) (by decide)
    (by intro x hx; rw [show (("b".toList : GoStr)).getLast? = some 'b' from rfl] at hx
        cases hx; decide)
    (by intro x hx; rw [show (("a".toList : GoStr)).getLast? = some 'a' from rfl] at hx
        cases hx; decide)
    (by intro x hx; rw [show (("c".toList : GoStr)).getLast? = some 'c' from rfl] at hx
        cases hx; decide)
  exact ⟨h.1, h.2.1⟩

/-! ## Helper definitions and lemmas: AWS rule realization -/

theorem buildIngress_ok (sgName : GoStr) (rules : List AwsCloudRule)
    (h : ∀ r ∈ rules, (generateCloudDescription r.networkPolicy sgName).isSome = true) :
    buildIngressPermissions sgName rules = Except.ok (ingressPermsOf sgName rules) := by
  induction rules with
  | nil => rfl
  | cons obj rest ih =>
    have hrest := ih (fun r hr => h r (List.mem_cons_of_mem _ hr))
    cases hrule : obj.rule with
    | ingress o =>
      cases o with
      | none =>
        conv_lhs => rw [buildIngressPermissions, hrule]
        conv_rhs => rw [ingressPermsOf, hrule]
        exact hrest
      | some r =>
        have hobj := h obj (List.mem_cons_self _ _)
        cases hgen : generateCloudDescription obj.networkPolicy sgName with
        | none => rw [hgen] at hobj; cases hobj
        | some d =>
          conv_lhs => rw [buildIngressPermissions, hrule, hgen]
          conv_rhs => rw [ingressPermsOf, hrule, hgen]
          rw [hrest]
          rfl
    | egress o =>
      conv_lhs => rw [buildIngressPermissions, hrule]
      conv_rhs => rw [ingressPermsOf, hrule]
      exact hrest

theorem buildEgress_ok (sgName : GoStr) (rules : List AwsCloudRule)
    (h : ∀ r ∈ rules, (generateCloudDescription r.networkPolicy sgName).isSome = true) :
    buildEgressPermissions sgName rules = Except.ok (egressPermsOf sgName rules) := by
  induction rules with
  | nil => rfl
  | cons obj rest ih =>
    have hrest := ih (fun r hr => h r (List.mem_cons_of_mem _ hr))
    cases hrule : obj.rule with
    | egress o =>
      cases o with
      | none =>
        conv_lhs => rw [buildEgressPermissions, hrule]
        conv_rhs => rw [egressPermsOf, hrule]
        exact hrest
      | some r =>
        have hobj := h obj (List.mem_cons_self _ _)
        cases hgen : generateCloudDescription obj.networkPolicy sgName with
        | none => rw [hgen] at hobj; cases hobj
        | some d =>
          conv_lhs => rw [buildEgressPermissions, hrule, hgen]
          conv_rhs => rw [egressPermsOf, hrule, hgen]
          rw [hrest]
          rfl
    | ingress o =>
      conv_lhs => rw [buildEgressPermissions, hrule]
      conv_rhs => rw [egressPermsOf, hrule]
      exact hrest

theorem realizeIngress_none (sgName : GoStr) (rules : List AwsCloudRule) (isDel : Bool)
    (st : SgApiState) (perms : List IpPermission)
    (h : buildIngressPermissions sgName rules = Except.ok perms) :
    realizeIngressIPPermissions none sgName rules isDel st =
      ({ trace := st.trace ++ optSgCall (if isDel then ApiAction.revoke else ApiAction.authorize)
            RuleDirection.ingress perms,
         ruleSet := if perms.isEmpty then st.ruleSet
           else applySgCall st.ruleSet
             { action := if isDel then ApiAction.revoke else ApiAction.authorize,
               dir := RuleDirection.ingress, perms := perms } }, none) := by
  unfold realizeIngressIPPermissions
  rw [h]
  cases hpe : perms.isEmpty with
  | true => simp [optSgCall, hpe]
  | false => simp [optSgCall, hpe, doSgApiCall]

theorem realizeEgress_none (sgName : GoStr) (rules : List AwsCloudRule) (isDel : Bool)
    (st : SgApiState) (perms : List IpPermission)
    (h : buildEgressPermissions sgName rules = Except.ok perms) :
    realizeEgressIPPermissions none sgName rules isDel st =
      ({ trace := st.trace ++ optSgCall (if isDel then ApiAction.revoke else ApiAction.authorize)
            RuleDirection.egress perms,
         ruleSet := if perms.isEmpty then st.ruleSet
           else applySgCall st.ruleSet
             { action := if isDel then ApiAction.revoke else ApiAction.authorize,
               dir := RuleDirection.egress, perms := perms } }, none) := by
  unfold realizeEgressIPPermissions
  rw [h]
  cases hpe : perms.isEmpty with
  | true => simp [optSgCall, hpe]
  | false => simp [optSgCall, hpe, doSgApiCall]

theorem realizeIngress_succ (n : Nat) (sgName : GoStr) (rules : List AwsCloudRule)
    (isDel : Bool) (st : SgApiState) (perms : List IpPermission)
    (h : buildIngressPermissions sgName rules = Except.ok perms)
    (hne : perms.isEmpty = false) (hn : n ≠ st.trace.length) :
    realizeIngressIPPermissions (some n) sgName rules isDel st =
      ({ trace := st.trace ++
           [⟨if isDel then ApiAction.revoke else ApiAction.authorize,
             RuleDirection.ingress, perms⟩],
         ruleSet := applySgCall st.ruleSet
           ⟨if isDel then ApiAction.revoke else ApiAction.authorize,
             RuleDirection.ingress, perms⟩ }, none) := by
  unfold realizeIngressIPPermissions
  rw [h]
  simp [hne, doSgApiCall, hn]

theorem realizeEgress_succ (n : Nat) (sgName : GoStr) (rules : List AwsCloudRule)
    (isDel : Bool) (st : SgApiState) (perms : List IpPermission)
    (h : buildEgressPermissions sgName rules = Except.ok perms)
    (hne : perms.isEmpty = false) (hn : n ≠ st.trace.length) :
    realizeEgressIPPermissions (some n) sgName rules isDel st =
      ({ trace := st.trace ++
           [⟨if isDel then ApiAction.revoke else ApiAction.authorize,
             RuleDirection.egress, perms⟩],
         ruleSet := applySgCall st.ruleSet
           ⟨if isDel then ApiAction.revoke else ApiAction.authorize,
             RuleDirection.egress, perms⟩ }, none) := by
  unfold realizeEgressIPPermissions
  rw [h]
  simp [hne, doSgApiCall, hn]

theorem realizeIngress_fail (n : Nat) (sgName : GoStr) (rules : List AwsCloudRule)
    (isDel : Bool) (st : SgApiState) (perms : List IpPermission)
    (h : buildIngressPermissions sgName rules = Except.ok perms)
    (hne : perms.isEmpty = false) (hn : n = st.trace.length) :
    realizeIngressIPPermissions (some n) sgName rules isDel st =
      ({ st with trace := st.trace ++
           [⟨if isDel then ApiAction.revoke else ApiAction.authorize,
             RuleDirection.ingress, perms⟩] },
        some (SgErr.apiErr n)) := by
  subst hn
  unfold realizeIngressIPPermissions
  rw [h]
  simp [hne, doSgApiCall]

theorem realizeEgress_fail (n : Nat) (sgName : GoStr) (rules : List AwsCloudRule)
    (isDel : Bool) (st : SgApiState) (perms : List IpPermission)
    (h : buildEgressPermissions sgName rules = Except.ok perms)
    (hne : perms.isEmpty = false) (hn : n = st.trace.length) :
    realizeEgressIPPermissions (some n) sgName rules isDel st =
      ({ st with trace := st.trace ++
           [⟨if isDel then ApiAction.revoke else ApiAction.authorize,
             RuleDirection.egress, perms⟩] },
        some (SgErr.apiErr n)) := by
  subst hn
  unfold realizeEgressIPPermissions
  rw [h]
  simp [hne, doSgApiCall]

/-- C2: with no adapter failure, `UpdateSecurityGroupRules` issues the
authorize/revoke requests in exactly the order rmIngress → addIngress →
rmEgress → addEgress (a step with no rendered permissions issues nothing),
and returns a nil error. -/

theorem claim_C2 (sgName : GoStr) (addRules rmRules : List AwsCloudRule)
    (S : Finset IpPermission)
    (hwf : ∀ r ∈ addRules ++ rmRules,
      (generateCloudDescription r.networkPolicy sgName).isSome = true) :
    (updateSecurityGroupRules none sgName addRules rmRules { trace := [], ruleSet := S }).2 =
      none ∧
    (updateSecurityGroupRules none sgName addRules rmRules
        { trace := [], ruleSet := S }).1.trace =
      optSgCall ApiAction.revoke RuleDirection.ingress
          (ingressPermsOf sgName (rmRules.filter isIngressRule)) ++
        optSgCall ApiAction.authorize RuleDirection.ingress
          (ingressPermsOf sgName (addRules.filter isIngressRule)) ++
        optSgCall ApiAction.revoke RuleDirection.egress
          (egressPermsOf sgName (rmRules.filter isEgressRule)) ++
        optSgCall ApiAction.authorize RuleDirection.egress
          (egressPermsOf sgName (addRules.filter isEgressRule)) := by
  have hadd : ∀ r ∈ addRules, (generateCloudDescription r.networkPolicy sgName).isSome = true :=
    fun r hr => hwf r (List.mem_append.2 (Or.inl hr))
  have hrm : ∀ r ∈ rmRules, (generateCloudDescription r.networkPolicy sgName).isSome = true :=
    fun r hr => hwf r (List.mem_append.2 (Or.inr hr))
  have e1 := fun st => realizeIngress_none sgName (rmRules.filter isIngressRule) true st _
    (buildIngress_ok sgName _ (fun r hr => hrm r (List.mem_of_mem_filter hr)))
  have e2 := fun st => realizeIngress_none sgName (addRules.filter isIngressRule) false st _
    (buildIngress_ok sgName _ (fun r hr => hadd r (List.mem_of_mem_filter hr)))
  have e3 := fun st => realizeEgress_none sgName (rmRules.filter isEgressRule) true st _
    (buildEgress_ok sgName _ (fun r hr => hrm r (List.mem_of_mem_filter hr)))
  have e4 := fun st => realizeEgress_none sgName (addRules.filter isEgressRule) false st _
    (buildEgress_ok sgName _ (fun r hr => hadd r (List.mem_of_mem_filter hr)))
  refine ⟨?_, ?_⟩ <;>
    simp [updateSecurityGroupRules, e1, e2, e3, e4, List.append_assoc]

theorem claim_C2_witness :
    (updateSecurityGroupRules none c1sgNameW c1addRulesW c1rmRulesW
        { trace := [], ruleSet := c1SW }).2 = none ∧
    (updateSecurityGroupRules none c1sgNameW c1addRulesW c1rmRulesW
        { trace := [], ruleSet := c1SW }).1.trace =
      [⟨ApiAction.revoke, RuleDirection.ingress, [⟨RuleU.ingress c1ruleAW, c1descW⟩]⟩,
       ⟨ApiAction.authorize, RuleDirection.ingress, [⟨RuleU.ingress c1ruleBW, c1descW⟩]⟩,
       ⟨ApiAction.revoke, RuleDirection.egress, [⟨RuleU.egress c1ruleCW, c1descW⟩]⟩,
       ⟨ApiAction.authorize, RuleDirection.egress, [⟨RuleU.egress c1ruleDW, c1descW⟩]⟩] := by
  have h := claim_C2 c1sgNameW c1addRulesW c1rmRulesW c1SW (by decide)
  refine ⟨h.1, ?_⟩
  rw [h.2]
  decide

/-- C10: a realize step whose rule list renders no IP permission (in
particular an empty list, or only nil-pointer rules) returns a nil error
without issuing any authorize/revoke request, and an
`UpdateSecurityGroupRules` call with empty add and remove lists leaves the
adapter state — trace and cloud rule set — unchanged and succeeds. -/

theorem claim_C10 (fi : Option Nat) (sgName : GoStr) (isDel : Bool) (st : SgApiState)
    (rules : List AwsCloudRule) :
    (buildIngressPermissions sgName rules = Except.ok [] →
      realizeIngressIPPermissions fi sgName rules isDel st = (st, none)) ∧
    (buildEgressPermissions sgName rules = Except.ok [] →
      realizeEgressIPPermissions fi sgName rules isDel st = (st, none)) ∧
    updateSecurityGroupRules fi sgName [] [] st = (st, none) := by
  refine ⟨?_, ?_, ?_⟩
  · intro h
    unfold realizeIngressIPPermissions
    rw [h]
    rfl
  · intro h
    unfold realizeEgressIPPermissions
    rw [h]
    rfl
  · rfl

theorem claim_C10_witness :
    realizeIngressIPPermissions none c1sgNameW
      [{ rule := AwsRulePayload.ingress none, networkPolicy := c1npW }] false
      { trace := [], ruleSet := c1SW } = ({ trace := [], ruleSet := c1SW }, none) :=
  (claim_C10 none c1sgNameW false { trace := [], ruleSet := c1SW }
    [{ rule := AwsRulePayload.ingress none, networkPolicy := c1npW }]).1 rfl

/-- C1 (amended): when the adapter fails the k-th of the four rule-update
steps (each step rendering a non-empty permission list, the removed rules
present in and the added ingress rules absent from the pre-update cloud rule
set `S`), `UpdateSecurityGroupRules` replays the inverses of the completed
steps 0..k−1 in the same forward order the deferred block lists them, issues
nothing else, returns the original failure, and the observable cloud rule set
ends equal to `S`. -/

theorem claim_C1_amended (k : Nat) (hk : k < 4) (sgName : GoStr)
    (addRules rmRules : List AwsCloudRule) (S : Finset IpPermission)
    (rmI addI rmE addE : List IpPermission)
    (hb1 : buildIngressPermissions sgName (rmRules.filter isIngressRule) = Except.ok rmI)
    (hb2 : buildIngressPermissions sgName (addRules.filter isIngressRule) = Except.ok addI)
    (hb3 : buildEgressPermissions sgName (rmRules.filter isEgressRule) = Except.ok rmE)
    (hb4 : buildEgressPermissions sgName (addRules.filter isEgressRule) = Except.ok addE)
    (hne1 : rmI ≠ []) (hne2 : addI ≠ []) (hne3 : rmE ≠ []) (hne4 : addE ≠ [])
    (hsub1 : ∀ p ∈ rmI, p ∈ S) (hsub3 : ∀ p ∈ rmE, p ∈ S)
    (hdis2 : ∀ p ∈ addI, p ∉ S) :
    (updateSecurityGroupRules (some k) sgName addRules rmRules ⟨[], S⟩).2 =
      some (SgErr.apiErr k) ∧
    (updateSecurityGroupRules (some k) sgName addRules rmRules ⟨[], S⟩).1.trace =
      expectedForwardRollbackTrace rmI addI rmE addE k ∧
    (updateSecurityGroupRules (some k) sgName addRules rmRules ⟨[], S⟩).1.ruleSet = S := by
  have hne1' : rmI.isEmpty = false := by
    cases hc : rmI with
    | nil => exact absurd hc hne1
    | cons a t => rfl
  have hne2' : addI.isEmpty = false := by
    cases hc : addI with
    | nil => exact absurd hc hne2
    | cons a t => rfl
  have hne3' : rmE.isEmpty = false := by
    cases hc : rmE with
    | nil => exact absurd hc hne3
    | cons a t => rfl
  have hne4' : addE.isEmpty = false := by
    cases hc : addE with
    | nil => exact absurd hc hne4
    | cons a t => rfl
  interval_cases k
  · -- failure at step 0 (rmIngress): no rollback, rule set untouched
    have s1 := realizeIngress_fail 0 sgName (rmRules.filter isIngressRule) true
      ⟨[], S⟩ rmI hb1 hne1' rfl
    have main : updateSecurityGroupRules (some 0) sgName addRules rmRules ⟨[], S⟩ =
        (⟨[⟨ApiAction.revoke, RuleDirection.ingress, rmI⟩], S⟩, some (SgErr.apiErr 0)) := by
      simp [updateSecurityGroupRules, s1]
    refine ⟨by rw [main], by rw [main]; rfl, by rw [main]⟩
  · -- failure at step 1 (addIngress): roll back step 0
    have s1 := realizeIngress_succ 1 sgName (rmRules.filter isIngressRule) true
      ⟨[], S⟩ rmI hb1 hne1' (by simp)
    have s2 := realizeIngress_fail 1 sgName (addRules.filter isIngressRule) false
      ⟨[⟨ApiAction.revoke, RuleDirection.ingress, rmI⟩], S \ rmI.toFinset⟩ addI hb2 hne2'
      (by simp)
    have r1 := realizeIngress_succ 1 sgName (rmRules.filter isIngressRule) false
      ⟨[⟨ApiAction.revoke, RuleDirection.ingress, rmI⟩,
        ⟨ApiAction.authorize, RuleDirection.ingress, addI⟩], S \ rmI.toFinset⟩ rmI hb1 hne1'
      (by simp)
    have hset : (S \ rmI.toFinset) ∪ rmI.toFinset = S := by
      ext x
      have hx1 : x ∈ rmI.toFinset → x ∈ S := fun h => hsub1 x (List.mem_toFinset.1 h)
      simp only [Finset.mem_union, Finset.mem_sdiff]
      tauto
    have main : updateSecurityGroupRules (some 1) sgName addRules rmRules ⟨[], S⟩ =
        (⟨[⟨ApiAction.revoke, RuleDirection.ingress, rmI⟩,
           ⟨ApiAction.authorize, RuleDirection.ingress, addI⟩,
           ⟨ApiAction.authorize, RuleDirection.ingress, rmI⟩],
          (S \ rmI.toFinset) ∪ rmI.toFinset⟩, some (SgErr.apiErr 1)) := by
      simp [updateSecurityGroupRules, s1, s2, r1, applySgCall]
    refine ⟨by rw [main], by rw [main]; rfl, by rw [main]; exact hset⟩
  · -- failure at step 2 (rmEgress): roll back steps 0, 1 in forward order
    have s1 := realizeIngress_succ 2 sgName (rmRules.filter isIngressRule) true
      ⟨[], S⟩ rmI hb1 hne1' (by simp)
    have s2 := realizeIngress_succ 2 sgName (addRules.filter isIngressRule) false
      ⟨[⟨ApiAction.revoke, RuleDirection.ingress, rmI⟩], S \ rmI.toFinset⟩ addI hb2 hne2'
      (by simp)
    have s3 := realizeEgress_fail 2 sgName (rmRules.filter isEgressRule) true
      ⟨[⟨ApiAction.revoke, RuleDirection.ingress, rmI⟩,
        ⟨ApiAction.authorize, RuleDirection.ingress, addI⟩],
        (S \ rmI.toFinset) ∪ addI.toFinset⟩ rmE hb3 hne3' (by simp)
    have r1 := realizeIngress_succ 2 sgName (rmRules.filter isIngressRule) false
      ⟨[⟨ApiAction.revoke, RuleDirection.ingress, rmI⟩,
        ⟨ApiAction.authorize, RuleDirection.ingress, addI⟩,
        ⟨ApiAction.revoke, RuleDirection.egress, rmE⟩],
        (S \ rmI.toFinset) ∪ addI.toFinset⟩ rmI hb1 hne1' (by simp)
    have r2 := realizeIngress_succ 2 sgName (addRules.filter isIngressRule) true
      ⟨[⟨ApiAction.revoke, RuleDirection.ingress, rmI⟩,
        ⟨ApiAction.authorize, RuleDirection.ingress, addI⟩,
        ⟨ApiAction.revoke, RuleDirection.egress, rmE⟩,
        ⟨ApiAction.authorize, RuleDirection.ingress, rmI⟩],
        S \ rmI.toFinset ∪ (addI.toFinset ∪ rmI.toFinset)⟩ addI hb2 hne2' (by simp)
    have hset : ((S \ rmI.toFinset ∪ (addI.toFinset ∪ rmI.toFinset)) \ addI.toFinset) = S := by
      ext x
      have hx1 : x ∈ rmI.toFinset → x ∈ S := fun h => hsub1 x (List.mem_toFinset.1 h)
      have hx2 : x ∈ addI.toFinset → x ∉ S := fun h => hdis2 x (List.mem_toFinset.1 h)
      simp only [Finset.mem_union, Finset.mem_sdiff]
      tauto
    have main : updateSecurityGroupRules (some 2) sgName addRules rmRules ⟨[], S⟩ =
        (⟨[⟨ApiAction.revoke, RuleDirection.ingress, rmI⟩,
           ⟨ApiAction.authorize, RuleDirection.ingress, addI⟩,
           ⟨ApiAction.revoke, RuleDirection.egress, rmE⟩,
           ⟨ApiAction.authorize, RuleDirection.ingress, rmI⟩,
           ⟨ApiAction.revoke, RuleDirection.ingress, addI⟩],
          (S \ rmI.toFinset ∪ (addI.toFinset ∪ rmI.toFinset)) \ addI.toFinset⟩,
          some (SgErr.apiErr 2)) := by
      simp [updateSecurityGroupRules, s1, s2, s3, r1, r2, applySgCall]
    refine ⟨by rw [main], by rw [main]; rfl, by rw [main]; exact hset⟩
  · -- failure at step 3 (addEgress): roll back steps 0, 1, 2 in forward order
    have s1 := realizeIngress_succ 3 sgName (rmRules.filter isIngressRule) true
      ⟨[], S⟩ rmI hb1 hne1' (by simp)
    have s2 := realizeIngress_succ 3 sgName (addRules.filter isIngressRule) false
      ⟨[⟨ApiAction.revoke, RuleDirection.ingress, rmI⟩], S \ rmI.toFinset⟩ addI hb2 hne2'
      (by simp)
    have s3 := realizeEgress_succ 3 sgName (rmRules.filter isEgressRule) true
      ⟨[⟨ApiAction.revoke, RuleDirection.ingress, rmI⟩,
        ⟨ApiAction.authorize, RuleDirection.ingress, addI⟩],
        (S \ rmI.toFinset) ∪ addI.toFinset⟩ rmE hb3 hne3' (by simp)
    have s4 := realizeEgress_fail 3 sgName (addRules.filter isEgressRule) false
      ⟨[⟨ApiAction.revoke, RuleDirection.ingress, rmI⟩,
        ⟨ApiAction.authorize, RuleDirection.ingress, addI⟩,
        ⟨ApiAction.revoke, RuleDirection.egress, rmE⟩],
        ((S \ rmI.toFinset) ∪ addI.toFinset) \ rmE.toFinset⟩ addE hb4 hne4' (by simp)
    have r1 := realizeIngress_succ 3 sgName (rmRules.filter isIngressRule) false
      ⟨[⟨ApiAction.revoke, RuleDirection.ingress, rmI⟩,
        ⟨ApiAction.authorize, RuleDirection.ingress, addI⟩,
        ⟨ApiAction.revoke, RuleDirection.egress, rmE⟩,
        ⟨ApiAction.authorize, RuleDirection.egress, addE⟩],
        ((S \ rmI.toFinset) ∪ addI.toFinset) \ rmE.toFinset⟩ rmI hb1 hne1' (by simp)
    have r2 := realizeIngress_succ 3 sgName (addRules.filter isIngressRule) true
      ⟨[⟨ApiAction.revoke, RuleDirection.ingress, rmI⟩,
        ⟨ApiAction.authorize, RuleDirection.ingress, addI⟩,
        ⟨ApiAction.revoke, RuleDirection.egress, rmE⟩,
        ⟨ApiAction.authorize, RuleDirection.egress, addE⟩,
        ⟨ApiAction.authorize, RuleDirection.ingress, rmI⟩],
        (((S \ rmI.toFinset) ∪ addI.toFinset) \ rmE.toFinset) ∪ rmI.toFinset⟩ addI hb2 hne2'
      (by simp)
    have r3 := realizeEgress_succ 3 sgName (rmRules.filter isEgressRule) false
      ⟨[⟨ApiAction.revoke, RuleDirection.ingress, rmI⟩,
        ⟨ApiAction.authorize, RuleDirection.ingress, addI⟩,
        ⟨ApiAction.revoke, RuleDirection.egress, rmE⟩,
        ⟨ApiAction.authorize, RuleDirection.egress, addE⟩,
        ⟨ApiAction.authorize, RuleDirection.ingress, rmI⟩,
        ⟨ApiAction.revoke, RuleDirection.ingress, addI⟩],
        ((((S \ rmI.toFinset) ∪ addI.toFinset) \ rmE.toFinset) ∪ rmI.toFinset) \ addI.toFinset⟩
      rmE hb3 hne3' (by simp)
    have hset : (((((S \ rmI.toFinset) ∪ addI.toFinset) \ rmE.toFinset) ∪ rmI.toFinset)
        \ addI.toFinset) ∪ rmE.toFinset = S := by
      ext x
      have hx1 : x ∈ rmI.toFinset → x ∈ S := fun h => hsub1 x (List.mem_toFinset.1 h)
      have hx2 : x ∈ addI.toFinset → x ∉ S := fun h => hdis2 x (List.mem_toFinset.1 h)
      have hx3 : x ∈ rmE.toFinset → x ∈ S := fun h => hsub3 x (List.mem_toFinset.1 h)
      simp only [Finset.mem_union, Finset.mem_sdiff]
      tauto
    have main : updateSecurityGroupRules (some 3) sgName addRules rmRules ⟨[], S⟩ =
        (⟨[⟨ApiAction.revoke, RuleDirection.ingress, rmI⟩,
           ⟨ApiAction.authorize, RuleDirection.ingress, addI⟩,
           ⟨ApiAction.revoke, RuleDirection.egress, rmE⟩,
           ⟨ApiAction.authorize, RuleDirection.egress, addE⟩,
           ⟨ApiAction.authorize, RuleDirection.ingress, rmI⟩,
           ⟨ApiAction.revoke, RuleDirection.ingress, addI⟩,
           ⟨ApiAction.authorize, RuleDirection.egress, rmE⟩],
          ((((((S \ rmI.toFinset) ∪ addI.toFinset) \ rmE.toFinset) ∪ rmI.toFinset)
            \ addI.toFinset)) ∪ rmE.toFinset⟩, some (SgErr.apiErr 3)) := by
      simp [updateSecurityGroupRules, s1, s2, s3, s4, r1, r2, r3, applySgCall]
    refine ⟨by rw [main], by rw [main]; rfl, by rw [main]; exact hset⟩

theorem claim_C1_amended_witness :
    (updateSecurityGroupRules (some 3) c1sgNameW c1addRulesW c1rmRulesW
        ⟨[], c1SW⟩).2 = some (SgErr.apiErr 3) ∧
    (updateSecurityGroupRules (some 3) c1sgNameW c1addRulesW c1rmRulesW
        ⟨[], c1SW⟩).1.ruleSet = c1SW ∧
    (updateSecurityGroupRules (some 3) c1sgNameW c1addRulesW c1rmRulesW
        ⟨[], c1SW⟩).1.trace =
      expectedForwardRollbackTrace [⟨RuleU.ingress c1ruleAW, c1descW⟩]
        [⟨RuleU.ingress c1ruleBW, c1descW⟩] [⟨RuleU.egress c1ruleCW, c1descW⟩]
        [⟨RuleU.egress c1ruleDW, c1descW⟩] 3 := by
  have h := claim_C1_amended 3 (by decide) c1sgNameW c1addRulesW c1rmRulesW c1SW
    [⟨RuleU.ingress c1ruleAW, c1descW⟩] [⟨RuleU.ingress c1ruleBW, c1descW⟩]
    [⟨RuleU.egress c1ruleCW, c1descW⟩] [⟨RuleU.egress c1ruleDW, c1descW⟩]
    rfl rfl rfl rfl
    (by decide) (by decide) (by decide) (by decide)
    (by decide) (by decide) (by decide)
  exact ⟨h.1, h.2.2, h.2.1⟩

/-- C1 counterexample: at the spec's own scenario — non-empty rmIngress,
addIngress, rmEgress, addEgress with the adapter failing the fourth step —
the trace the code emits is not the reverse-order rollback trace the claim
prescribes: the deferred block replays the inverses of steps 0..2 in forward
order, so the first rollback request is `authorize ingress` (inverse of step
0), not `authorize egress` (inverse of step 2). -/

theorem claim_C1_counterexample :
    (updateSecurityGroupRules (some 3) c1sgNameW c1addRulesW c1rmRulesW
        ⟨[], c1SW⟩).1.trace ≠
      c1ReverseRollbackTrace [⟨RuleU.ingress c1ruleAW, c1descW⟩]
        [⟨RuleU.ingress c1ruleBW, c1descW⟩] [⟨RuleU.egress c1ruleCW, c1descW⟩]
        [⟨RuleU.egress c1ruleDW, c1descW⟩] := by
  decide

/-- C7: `DeleteSecurityGroup` of a group absent from the cloud succeeds with
no API request; for an existing group it first detaches exactly the
instance-backed NICs carrying the group — each modify request attaching a
non-empty SG set, the VPC default SG when the NIC would otherwise be left
with none — and issues the delete request only after, and only if, every
detach succeeded. -/

theorem claim_C7 (st : Ec2VpcState) (mf : String → Bool) (name : String) (mo : Bool) :
    (st.sgs.find? (fun g => goToLower g.groupName == getCloudName name mo) = none →
      deleteSecurityGroupImpl st mf name mo = ([], true)) ∧
    (∀ g dsg,
      st.sgs.find? (fun g2 => goToLower g2.groupName == getCloudName name mo) = some g →
      getVpcDefaultSecurityGroupID st = some dsg →
      (∀ nic ∈ st.nics,
        (processNicForMemberUpdate g.groupId (getCloudName name mo) dsg [] [] mo
            nic).isSome =
          (nic.instanceId.isSome &&
            (classifyNicGroups (getCloudName name mo) nic.groups).1)) ∧
      (∀ p ∈ detachPlans st g.groupId (getCloudName name mo) dsg mo,
        (updateNetworkInterfaceSecurityGroups dsg mf p.1 p.2).1 =
          Ec2ApiCall.modifyNic p.1 (if p.2.isEmpty then [dsg] else p.2) ∧
        (if p.2.isEmpty then [dsg] else p.2) ≠ []) ∧
      deleteSecurityGroupImpl st mf name mo =
        ((detachResults mf dsg (detachPlans st g.groupId (getCloudName name mo) dsg mo)).map
            Prod.fst ++
          (if (detachResults mf dsg
              (detachPlans st g.groupId (getCloudName name mo) dsg mo)).all Prod.snd then
            [Ec2ApiCall.deleteSg g.groupId] else []),
         (detachResults mf dsg
           (detachPlans st g.groupId (getCloudName name mo) dsg mo)).all Prod.snd)) := by
  constructor
  · intro h
    unfold deleteSecurityGroupImpl
    dsimp only
    rw [h]
  · intro g dsg hfind hdsg
    refine ⟨?_, ?_, ?_⟩
    · intro nic _
      unfold processNicForMemberUpdate
      cases hin : nic.instanceId with
      | none => simp
      | some inst =>
        cases hcl : (classifyNicGroups (getCloudName name mo) nic.groups).1 with
        | true => simp [hcl]
        | false => simp [hcl]
    · intro p _
      refine ⟨rfl, ?_⟩
      cases hpe : p.2 with
      | nil => simp
      | cons a t => simp
    · have hbridge : updateSecurityGroupMembersImpl st mf g.groupId
          (getCloudName name mo) [] mo =
          Except.ok ((detachResults mf dsg
              (detachPlans st g.groupId (getCloudName name mo) dsg mo)).map Prod.fst,
            (detachResults mf dsg
              (detachPlans st g.groupId (getCloudName name mo) dsg mo)).all Prod.snd) := by
        unfold updateSecurityGroupMembersImpl detachPlans detachResults
        rw [hdsg]
        rfl
      unfold deleteSecurityGroupImpl
      dsimp only
      rw [hfind]
      dsimp only
      rw [hbridge]
      cases hall : (detachResults mf dsg
          (detachPlans st g.groupId (getCloudName name mo) dsg mo)).all Prod.snd with
      | true => simp [hall]
      | false => simp [hall]

theorem claim_C7_witness :
    deleteSecurityGroupImpl c7stW (fun _ => false) "zzz" false = ([], true) ∧
    deleteSecurityGroupImpl c7stW (fun _ => false) "atg1" false =
      ([Ec2ApiCall.modifyNic "eni-1" ["sg-def"], Ec2ApiCall.deleteSg "sg-at1"], true) := by
  constructor
  · exact (claim_C7 c7stW (fun _ => false) "zzz" false).1 (by decide)
  · have h := (claim_C7 c7stW (fun _ => false) "atg1" false).2
      { groupName := "nephe-at-atg1", groupId := "sg-at1" } "sg-def" (by decide) (by decide)
    rw [h.2.2]
    decide
